import Mathlib

/-!
# Verification of the AcademicForecast planner

A shallow embedding of `src/academicforecast.py`: the course-identity
resolver (`CourseDataResolver`), the progress classifier
(`get_student_progress`), and the forward-simulation planner
(`generate_forecast`), together with theorems settling the frozen claims
about the program.

Python dictionaries are modelled as association lists in insertion order
(`alookup` is `dict.get`: first matching key).  Python sets whose only
observable use is membership are modelled as lists; sets that the program
iterates (`retake_courses`, `pending_core`, `pending_choices`) are kept as
lists in a canonical order, and the simulation is additionally
parameterised by an enumeration function `enum` standing for Python's
unspecified set-iteration order (the stock program is `enum = id`).
Machine integers are `Int` with Python's floor division (`Int.fdiv`) and
modulo (`Int.emod`).  `None`-able values are `Option`.
-/

namespace AcademicForecast

/-! ## Association lists and small set/list utilities -/

/-- `dict.get k` on an association list: value at the first matching key. -/
def alookup (k : String) : List (String × β) → Option β
  | [] => none
  | kv :: t => if kv.1 = k then some kv.2 else alookup k t

/-- `dict[k] = v`: overwrite the value at key `k` in place, or append a new
binding when the key is absent (Python dict assignment). -/
def dictInsert (m : List (String × β)) (k : String) (v : β) : List (String × β) :=
  if (alookup k m).isSome then
    m.map (fun kv => if kv.1 = k then (k, v) else kv)
  else m ++ [(k, v)]

/-- Insert a binding only when the key is absent
(`if course_id not in ...` guard). -/
def dictInsertIfAbsent (m : List (String × β)) (k : String) (v : β) : List (String × β) :=
  if (alookup k m).isSome then m else m ++ [(k, v)]

/-- Split a character list at every occurrence of `sep` (no collapsing of
empty fields). -/
def splitChars (sep : Char) : List Char → List (List Char)
  | [] => [[]]
  | c :: t =>
    if c = sep then [] :: splitChars sep t
    else
      match splitChars sep t with
      | [] => [[c]]
      | h :: r => (c :: h) :: r

/-- Python's `s.split('/')`: split on every slash, keeping empty fields
(`"".split('/') == [""]`).  Structurally recursive so that it evaluates
inside the kernel (`String.splitOn` does not). -/
def splitSlash (s : String) : List String :=
  (splitChars '/' s.data).map String.mk

/-- Boolean membership of a string in a list. -/
def memB (x : String) : List String → Bool
  | [] => false
  | y :: t => if x = y then true else memB x t

/-- Boolean membership of an optional string in a list of optional strings. -/
def omemB (x : Option String) : List (Option String) → Bool
  | [] => false
  | y :: t => if x = y then true else omemB x t

/-- Boolean list inclusion (`set(...).issubset(...)` on the underlying
elements). -/
def subB (l₁ l₂ : List String) : Bool :=
  l₁.all (fun a => memB a l₂)

/-- `set.add`: append an element unless it is already present. -/
def sadd (l : List String) (x : String) : List String :=
  if x ∈ l then l else l ++ [x]

/-- `a.union(b)`: add every element of `b` to `a`. -/
def unionL (a b : List String) : List String :=
  b.foldl sadd a

/-- Lexicographic `≤` on character lists by code point (Python's string
order), structurally recursive so that it evaluates inside the kernel. -/
def lexLe : List Char → List Char → Bool
  | [], _ => true
  | _ :: _, [] => false
  | a :: as, b :: bs =>
    if a.toNat < b.toNat then true
    else if a.toNat = b.toNat then lexLe as bs
    else false

/-- String `≤` by code points, as Python's `sorted` compares. -/
def strLe (a b : String) : Bool := lexLe a.data b.data

/-- Insert a string into a (sorted) list, keeping `strLe`-order. -/
def insertSorted (a : String) : List String → List String
  | [] => [a]
  | b :: t => if strLe a b then a :: b :: t else b :: insertSorted a t

/-- `sorted(list(s))`: sort a list of strings. -/
def sortList (l : List String) : List String :=
  l.foldr insertSorted []

@[simp] theorem memB_iff (x : String) (l : List String) : memB x l = true ↔ x ∈ l := by
  induction l with
  | nil => simp [memB]
  | cons y t ih =>
    by_cases h : x = y <;> simp [memB, h, ih]

@[simp] theorem omemB_iff (x : Option String) (l : List (Option String)) :
    omemB x l = true ↔ x ∈ l := by
  induction l with
  | nil => simp [omemB]
  | cons y t ih =>
    by_cases h : x = y <;> simp [omemB, h, ih]

@[simp] theorem subB_iff (l₁ l₂ : List String) : subB l₁ l₂ = true ↔ ∀ a ∈ l₁, a ∈ l₂ := by
  simp [subB]

theorem memB_eq_false {x : String} {l : List String} : memB x l = false ↔ x ∉ l := by
  rw [Bool.eq_false_iff, Ne, memB_iff]

theorem omemB_eq_false {x : Option String} {l : List (Option String)} :
    omemB x l = false ↔ x ∉ l := by
  rw [Bool.eq_false_iff, Ne, omemB_iff]

@[simp] theorem mem_sadd (y : String) (l : List String) (x : String) :
    y ∈ sadd l x ↔ y ∈ l ∨ y = x := by
  by_cases h : x ∈ l
  · simp only [sadd, if_pos h]
    constructor
    · exact fun hy => Or.inl hy
    · rintro (hy | rfl) <;> [exact hy; exact h]
  · simp [sadd, if_neg h]

@[simp] theorem mem_unionL (y : String) (a b : List String) :
    y ∈ unionL a b ↔ y ∈ a ∨ y ∈ b := by
  induction b generalizing a with
  | nil => simp [unionL]
  | cons x t ih =>
    show y ∈ unionL (sadd a x) t ↔ _
    rw [ih]
    simp only [mem_sadd, List.mem_cons]
    tauto

@[simp] theorem mem_insertSorted (y a : String) (l : List String) :
    y ∈ insertSorted a l ↔ y = a ∨ y ∈ l := by
  induction l with
  | nil => simp [insertSorted]
  | cons b t ih =>
    by_cases h : strLe a b = true
    · simp [insertSorted, h]
    · rw [Bool.not_eq_true] at h
      simp only [insertSorted, h, Bool.false_eq_true, if_false, List.mem_cons, ih]
      tauto

@[simp] theorem mem_sortList (y : String) (l : List String) :
    y ∈ sortList l ↔ y ∈ l := by
  induction l with
  | nil => simp [sortList]
  | cons a t ih =>
    show y ∈ insertSorted a (sortList t) ↔ _
    simp [ih]

theorem alookup_append_left {k : String} {a : List (String × β)} {v : β}
    (h : alookup k a = some v) (b : List (String × β)) : alookup k (a ++ b) = some v := by
  induction a with
  | nil => simp [alookup] at h
  | cons kv t ih =>
    simp only [alookup] at h ⊢
    by_cases hk : kv.1 = k
    · simpa [hk] using h
    · simp only [if_neg hk] at h ⊢
      exact ih h

theorem alookup_append_right {k : String} {a : List (String × β)}
    (h : alookup k a = none) (b : List (String × β)) : alookup k (a ++ b) = alookup k b := by
  induction a with
  | nil => simp
  | cons kv t ih =>
    simp only [alookup] at h ⊢
    by_cases hk : kv.1 = k
    · simp [hk] at h
    · simp only [if_neg hk] at h ⊢
      exact ih h

theorem alookup_eq_none_iff {k : String} {m : List (String × β)} :
    alookup k m = none ↔ k ∉ m.map Prod.fst := by
  induction m with
  | nil => simp [alookup]
  | cons kv t ih =>
    simp only [alookup, List.map_cons, List.mem_cons]
    by_cases hk : kv.1 = k
    · simp [hk]
    · simp only [if_neg hk, ih]
      constructor
      · intro h hc
        rcases hc with hc | hc
        · exact hk hc.symm
        · exact h hc
      · intro h hc
        exact h (Or.inr hc)

theorem alookup_overwrite_ne {k k' : String} (hne : k' ≠ k) (v : β) (m : List (String × β)) :
    alookup k' (m.map (fun kv => if kv.1 = k then (k, v) else kv)) = alookup k' m := by
  induction m with
  | nil => simp
  | cons kv t ih =>
    simp only [List.map_cons, alookup]
    by_cases hk : kv.1 = k
    · have : ¬ k = k' := fun h => hne h.symm
      simp only [if_pos hk, alookup, this, if_false, ih]
      have : ¬ kv.1 = k' := fun h => hne (h ▸ hk : k' = k)
      simp [this]
    · simp only [if_neg hk, alookup]
      by_cases h₂ : kv.1 = k'
      · simp [h₂]
      · simp only [if_neg h₂]
        exact ih

theorem alookup_overwrite_eq {k : String} (v : β) {m : List (String × β)}
    (h : (alookup k m).isSome) :
    alookup k (m.map (fun kv => if kv.1 = k then (k, v) else kv)) = some v := by
  induction m with
  | nil => simp [alookup] at h
  | cons kv t ih =>
    simp only [List.map_cons, alookup]
    by_cases hk : kv.1 = k
    · simp [if_pos hk, alookup]
    · simp only [alookup, if_neg hk] at h ⊢
      exact ih h

theorem alookup_dictInsert (k k' : String) (v : β) (m : List (String × β)) :
    alookup k' (dictInsert m k v) = if k' = k then some v else alookup k' m := by
  unfold dictInsert
  by_cases hp : (alookup k m).isSome
  · rw [if_pos hp]
    by_cases hk : k' = k
    · subst hk
      rw [if_pos rfl]
      exact alookup_overwrite_eq v hp
    · rw [if_neg hk]
      exact alookup_overwrite_ne hk v m
  · rw [if_neg hp]
    by_cases hk : k' = k
    · subst hk
      rw [if_pos rfl]
      rw [alookup_append_right (Option.not_isSome_iff_eq_none.mp hp)]
      simp [alookup]
    · rw [if_neg hk]
      cases h : alookup k' m with
      | some w => exact alookup_append_left h _
      | none =>
        rw [alookup_append_right h]
        simp only [alookup, if_neg (fun hc : k = k' => hk hc.symm)]

theorem alookup_dictInsertIfAbsent_of_some {k' : String} {m : List (String × β)} {w : β}
    (h : alookup k' m = some w) (k : String) (v : β) :
    alookup k' (dictInsertIfAbsent m k v) = some w := by
  unfold dictInsertIfAbsent
  by_cases hp : (alookup k m).isSome
  · rw [if_pos hp]; exact h
  · rw [if_neg hp]; exact alookup_append_left h _

theorem alookup_dictInsertIfAbsent_self_of_none {k : String} {m : List (String × β)}
    (h : alookup k m = none) (v : β) :
    alookup k (dictInsertIfAbsent m k v) = some v := by
  unfold dictInsertIfAbsent
  rw [if_neg (by simp [h]), alookup_append_right h]
  simp [alookup]

theorem alookup_dictInsertIfAbsent_other_of_none {k k' : String} {m : List (String × β)}
    (h : alookup k' m = none) (hne : k' ≠ k) (v : β) :
    alookup k' (dictInsertIfAbsent m k v) = none := by
  unfold dictInsertIfAbsent
  by_cases hp : (alookup k m).isSome
  · rw [if_pos hp]; exact h
  · rw [if_neg hp, alookup_append_right h]
    simp only [alookup, if_neg (fun hc : k = k' => hne hc.symm)]

/-- Keys of a dictionary built with `dictInsert` stay distinct. -/
theorem nodup_keys_dictInsert (m : List (String × β)) (k : String) (v : β)
    (h : (m.map Prod.fst).Nodup) : ((dictInsert m k v).map Prod.fst).Nodup := by
  unfold dictInsert
  by_cases hp : (alookup k m).isSome
  · rw [if_pos hp]
    have hmap : ((m.map (fun kv => if kv.1 = k then (k, v) else kv)).map Prod.fst)
        = m.map Prod.fst := by
      rw [List.map_map]
      apply List.map_congr_left
      intro kv _
      by_cases hk : kv.1 = k <;> simp [hk]
    rw [hmap]
    exact h
  · rw [if_neg hp]
    rw [List.map_append]
    simp only [List.map_cons, List.map_nil]
    apply List.Nodup.append h (by simp)
    intro a ha hb
    simp only [List.mem_singleton] at hb
    subst hb
    exact (alookup_eq_none_iff.mp (Option.not_isSome_iff_eq_none.mp hp)) ha

/-! ## Data model

Mirrors the JSON configuration consumed by `academicforecast.py`. -/

/-- One entry of `aliases.json`: the raw key/value pairs of the JSON object
(the `course_names` display name, per-curriculum code strings, and the
`default` code string live together in one dict, as in the source). -/
structure AliasEntry where
  codes : List (String × String)
deriving DecidableEq

/-- `CourseDataResolver`'s constructor inputs: the alias table (keyed by
internal code, in table order) and the three offering lists (stringified
numeric ids for term tags `"1"`, `"2"`, `"s"`).  Caches are modelled as
transparent: every lookup recomputes the cached pure value. -/
structure Resolver where
  aliases : List (String × AliasEntry)
  off1 : List String
  off2 : List String
  offS : List String
deriving DecidableEq

/-- `GRADE_ORDER`: grade label to ordinal rank. -/
abbrev GradeOrder := List (String × Int)

/-- Value of `get_course_details`: either the rich dict
`{name, internal_code, course_id}` or the raw course-id string fallback. -/
inductive CourseRef where
  | obj (name internal_code course_id : String)
  | raw (course_id : String)
deriving DecidableEq

/-- The `course_id` carried by a `CourseRef` (for `obj` the `course_id`
field, for `raw` the string itself). -/
def refCid : CourseRef → String
  | .obj _ _ cid => cid
  | .raw cid => cid

/-- One element of a forecast term's `courses` list.  In Python both
`CourseRef.raw c` and `text c` are the same plain string; they are kept
apart here only to record which branch produced them. -/
inductive ForecastItem where
  | course (r : CourseRef)
  | text (s : String)
  | slotOpts (placeholder : String) (options : List CourseRef)
deriving DecidableEq

/-- One appended forecast entry `{academic_year, semester, courses}`. -/
structure ForecastEntry where
  academic_year : String
  semester : String
  courses : List ForecastItem
deriving DecidableEq

/-- A core requirement item `{course, pg?, pre?, semester}` of a
curriculum's `courses` list. -/
structure CoreInfo where
  pg : Option String
  pre : List String
  semester : Int
deriving DecidableEq

/-- A choice-group item `{choice: {placeholder, courses}, pg?, pre?, semester}`. -/
structure ChoiceInfo where
  options : List String
  pg : Option String
  pre : List String
  semester : Int
deriving DecidableEq

/-- An entry of a curriculum's `courses` list: a core course or a choice
group. -/
inductive CurrEntry where
  | core (course : String) (info : CoreInfo)
  | choice (placeholder : String) (info : ChoiceInfo)
deriving DecidableEq

/-- A pool course of the major-electives block `{course, pre?}`. -/
structure MajorCourse where
  course : String
  pre : List String
deriving DecidableEq

/-- An elective slot `{placeholder, semester}`. -/
structure Slot where
  placeholder : String
  semester : Int
deriving DecidableEq

/-- The `major_electives` block. -/
structure MajorReqs where
  courses : List MajorCourse
  slots : List Slot
  pg : Option String
deriving DecidableEq

/-- The `free_electives` block. -/
structure FreeReqs where
  slots : List Slot
  pg : Option String
deriving DecidableEq

/-- A curriculum definition. -/
structure Curriculum where
  curriculum_name : String
  courses : List CurrEntry
  major_electives : MajorReqs
  free_electives : FreeReqs
deriving DecidableEq

/-- A student's record for one completed course (`{grade}`; a missing grade
is `none`). -/
structure CourseRec where
  grade : Option String
deriving DecidableEq

/-- One student: assigned curriculum (possibly unset) and the course map in
insertion order. -/
structure StudentData where
  curriculum : Option String
  courses : List (String × CourseRec)
deriving DecidableEq

/-- `config/config.json`: current academic year and current semester. -/
structure Config where
  current_year : Int
  current_semester : Int
deriving DecidableEq

/-! ## CourseDataResolver -/

/-- The `{internal_code, name}` value of the prebuilt reverse detail map. -/
structure Details where
  internal_code : String
  name : String
deriving DecidableEq

/-- `alias_data.get('course_names', 'N/A')`. -/
def courseNamesOf (e : AliasEntry) : String :=
  (alookup "course_names" e.codes).getD "N/A"

/-- Record every course id of one alias entry into the detail map
(`if course_id not in self._course_id_to_details`: first writer wins). -/
def detailsInsertEntry (m : List (String × Details)) (ic : String) (e : AliasEntry) :
    List (String × Details) :=
  e.codes.foldl
    (fun m kv =>
      if kv.1 = "course_names" ∨ kv.2 = "" then m
      else (splitSlash kv.2).foldl
        (fun m cid => dictInsertIfAbsent m cid ⟨ic, courseNamesOf e⟩) m)
    m

/-- `self._course_id_to_details` built over the whole alias table. -/
def buildDetailsMap (aliases : List (String × AliasEntry)) : List (String × Details) :=
  aliases.foldl (fun m p => detailsInsertEntry m p.1 p.2) []

/-- Record every course id of one alias entry into the identity map
(`self._course_id_to_internal_code[course_id] = internal_code`: plain
assignment, so a later entry overwrites an earlier one). -/
def internalInsertEntry (m : List (String × String)) (ic : String) (e : AliasEntry) :
    List (String × String) :=
  e.codes.foldl
    (fun m kv =>
      if kv.1 = "course_names" ∨ kv.2 = "" then m
      else (splitSlash kv.2).foldl (fun m cid => dictInsert m cid ic) m)
    m

/-- `self._course_id_to_internal_code` built over the whole alias table. -/
def buildInternalMap (aliases : List (String × AliasEntry)) : List (String × String) :=
  aliases.foldl (fun m p => internalInsertEntry m p.1 p.2) []

/-- `get_course_details(course_id, curriculum_id)`: the rich record when the
id is known, else the raw id (the curriculum argument is unused, as in the
source). -/
def get_course_details (R : Resolver) (course_id _curriculum_id : String) : CourseRef :=
  match alookup course_id (buildDetailsMap R.aliases) with
  | some d => .obj d.name d.internal_code course_id
  | none => .raw course_id

/-- `get_internal_code(course_id)`. -/
def get_internal_code (R : Resolver) (course_id : String) : Option String :=
  alookup course_id (buildInternalMap R.aliases)

/-- `alias_entry.get(curriculum_id) or alias_entry.get('default')`, then the
`if course_code:` truthiness guard (`none`/`""` are both falsy). -/
def entryOfferedCode (e : AliasEntry) (curriculum_id : String) : Option String :=
  let a := (alookup curriculum_id e.codes).getD ""
  let c := if a ≠ "" then a else (alookup "default" e.codes).getD ""
  if c ≠ "" then some c else none

/-- The raw offering id list for a term tag. -/
def offeringIds (R : Resolver) (tag : String) : List String :=
  if tag = "1" then R.off1 else if tag = "2" then R.off2
  else if tag = "s" then R.offS else []

/-- `get_offerings(semester, curriculum_id)`: union of the split codes of
every offered alias entry (order is irrelevant, only membership is ever
used). -/
def get_offerings (R : Resolver) (tag curriculum_id : String) : List String :=
  (offeringIds R tag).foldl
    (fun acc nid =>
      match alookup nid R.aliases with
      | some e =>
        match entryOfferedCode e curriculum_id with
        | some code => acc ++ splitSlash code
        | none => acc
      | none => acc)
    []

/-- `alias_data.get(curriculum_id, "")` in `get_canonical_course`. -/
def entryCurrCode (e : AliasEntry) (curriculum_id : String) : String :=
  (alookup curriculum_id e.codes).getD ""

/-- `alias_data.get('default', "")` in `get_canonical_course`. -/
def entryDefaultCode (e : AliasEntry) : String :=
  (alookup "default" e.codes).getD ""

/-- The body of `get_canonical_course`, searching the alias entries in table
order; per entry the curriculum-specific match is tried first, then the
default match. -/
def canonicalSearch (curriculum_id student_course_id : String) :
    List (String × AliasEntry) → String
  | [] => student_course_id
  | p :: rest =>
    let cc := entryCurrCode p.2 curriculum_id
    if student_course_id ∈ splitSlash cc then cc
    else
      let dc := entryDefaultCode p.2
      if student_course_id ∈ splitSlash dc then
        (if cc ≠ "" then cc else dc)
      else canonicalSearch curriculum_id student_course_id rest

/-- `get_canonical_course(student_course_id, curriculum_id)`. -/
def get_canonical_course (R : Resolver) (student_course_id curriculum_id : String) : String :=
  canonicalSearch curriculum_id student_course_id R.aliases

/-! ## Grades and progress classification -/

/-- Rank of a grade label (`grade_order.get(grade, 0)`); a missing grade
record behaves like an unknown label. -/
def gradeRank (go : GradeOrder) : Option String → Int
  | none => 0
  | some g => (alookup g go).getD 0

/-- `is_grade_passing(grade, passing_grade, grade_order)`. -/
def is_grade_passing (go : GradeOrder) (grade : Option String) (passing_grade : String) : Bool :=
  gradeRank go grade ≥ gradeRank go (some passing_grade)

/-- `core_map`: dict comprehension over the curriculum's core items
(duplicate courses: last value wins, first position kept). -/
def coreMapOf (curr : Curriculum) : List (String × CoreInfo) :=
  curr.courses.foldl
    (fun m e => match e with
      | .core c info => dictInsert m c info
      | .choice _ _ => m)
    []

/-- `choice_map`: dict comprehension over the curriculum's choice items. -/
def choiceMapOf (curr : Curriculum) : List (String × ChoiceInfo) :=
  curr.courses.foldl
    (fun m e => match e with
      | .core _ _ => m
      | .choice p info => dictInsert m p info)
    []

/-- `major_electives_map`: dict over the elective pool courses. -/
def majorMapOf (curr : Curriculum) : List (String × MajorCourse) :=
  curr.major_electives.courses.foldl (fun m c => dictInsert m c.course c) []

/-- Search the choice groups in map order for the first group containing the
canonical id among its options (the `for placeholder, choice_item ...`
loop with `break`). -/
def findChoiceGroup (canonical : String) :
    List (String × ChoiceInfo) → Option (String × ChoiceInfo)
  | [] => none
  | p :: rest =>
    if canonical ∈ p.2.options then some p else findChoiceGroup canonical rest

/-- Output of `get_student_progress` (the free-elective counter is carried
even though the source never increments it). -/
structure Progress where
  passed : List String
  failed : List String
  choices : List String
  majorPassed : List String
  freeCount : Int
  passedIC : List String
deriving DecidableEq

/-- Classification of one completed course record. -/
def progressStep (go : GradeOrder) (R : Resolver) (curriculum_id : String)
    (coreMap : List (String × CoreInfo)) (majorMap : List (String × MajorCourse))
    (choiceMap : List (String × ChoiceInfo)) (major_pg : String)
    (pr : Progress) (rec : String × CourseRec) : Progress :=
  let grade := rec.2.grade
  -- `if internal_code and is_grade_passing(grade, 'D', grade_order)`
  let pr :=
    match get_internal_code R rec.1 with
    | some ic =>
      if ic ≠ "" ∧ is_grade_passing go grade "D" = true then
        { pr with passedIC := sadd pr.passedIC ic }
      else pr
    | none => pr
  let canonical := get_canonical_course R rec.1 curriculum_id
  match alookup canonical coreMap with
  | some info =>
    if is_grade_passing go grade (info.pg.getD "D") then
      { pr with passed := sadd pr.passed canonical }
    else
      { pr with failed := sadd pr.failed canonical }
  | none =>
    match alookup canonical majorMap with
    | some _ =>
      if is_grade_passing go grade major_pg then
        { pr with majorPassed := sadd pr.majorPassed canonical }
      else pr
    | none =>
      match findChoiceGroup canonical choiceMap with
      | some p =>
        if is_grade_passing go grade (p.2.pg.getD "D") then
          { pr with choices := sadd pr.choices p.1 }
        else pr
      | none => pr

/-- `get_student_progress(student_courses, curriculum, grade_order,
resolver)`.  Note that `free_electives_passed_count` starts at `0` and is
never incremented anywhere in the source. -/
def get_student_progress (student_courses : List (String × CourseRec))
    (curr : Curriculum) (go : GradeOrder) (R : Resolver) : Progress :=
  let curriculum_id := curr.curriculum_name
  let coreMap := coreMapOf curr
  let choiceMap := choiceMapOf curr
  let majorMap := majorMapOf curr
  let major_pg := curr.major_electives.pg.getD "D"
  student_courses.foldl
    (progressStep go R curriculum_id coreMap majorMap choiceMap major_pg)
    ⟨[], [], [], [], 0, []⟩

/-! ## Forecast simulation -/

/-- `'D'` baseline check against the two internal-code dedup sets:
`internal_code not in passed_internal_codes and internal_code not in
forecasted_internal_codes`.  A `None` code never occurs in
`passed_internal_codes` but may occur in `forecasted_internal_codes`. -/
def icFree (ic : Option String) (passedIC : List String) (fic : List (Option String)) : Bool :=
  (match ic with
   | some s => !(memB s passedIC)
   | none => true) && !(omemB ic fic)

/-- `pre` list of a core course, `core_map.get(course, {}).get('pre', [])`. -/
def corePre (coreMap : List (String × CoreInfo)) (c : String) : List String :=
  match alookup c coreMap with
  | some info => info.pre
  | none => []

/-- One dedup-checked scheduling sweep over a list of candidate courses: the
shape shared by the retake loop and the pending-core loop.  `cond` is the
per-course part of the guard (offering, prerequisites, declared term);
`icFree` is checked against the running `forecasted_internal_codes`, and a
scheduled course's internal code — even `None` — is added to it.  Returns
the kept candidates, the grown code set, and the appended items. -/
def schedulePass (R : Resolver) (curriculum_id : String) (passedIC : List String)
    (cond : String → Bool) :
    List String → List (Option String) →
    List String × List (Option String) × List ForecastItem
  | [], fic => ([], fic, [])
  | c :: rest, fic =>
    let ic := get_internal_code R c
    if cond c && icFree ic passedIC fic then
      let r := schedulePass R curriculum_id passedIC cond rest (fic ++ [ic])
      (r.1, r.2.1, .course (get_course_details R c curriculum_id) :: r.2.2)
    else
      let r := schedulePass R curriculum_id passedIC cond rest fic
      (c :: r.1, r.2.1, r.2.2)

/-- The pending-choices loop: schedule each placeholder whose declared term
matches and whose prerequisites are satisfied (no offering or internal-code
check). -/
def choicePass (choiceMap : List (String × ChoiceInfo)) (n : Int) (fp : List String) :
    List String → List String × List ForecastItem
  | [] => ([], [])
  | p :: rest =>
    let ok :=
      match alookup p choiceMap with
      | some ci => (ci.semester == n) && subB ci.pre fp
      | none => false
    if ok then
      let r := choicePass choiceMap n fp rest
      (r.1, .text p :: r.2)
    else
      let r := choicePass choiceMap n fp rest
      (p :: r.1, r.2)

/-- Collect the option list for one major-elective slot: every available
pool course that is offered, has satisfied prerequisites, passes both
internal-code dedup sets, and whose code was not already chosen for this
slot (`internal_codes_in_options`, grown unconditionally, `None`
included). -/
def collectOptions (R : Resolver) (curriculum_id : String) (offerings : List String)
    (passedIC : List String) (fic : List (Option String)) (fp : List String) :
    List MajorCourse → List (Option String) → List CourseRef
  | [], _ => []
  | c :: rest, icSeen =>
    let ic := get_internal_code R c.course
    if subB c.pre fp && memB c.course offerings && icFree ic passedIC fic
        && !(omemB ic icSeen) then
      get_course_details R c.course curriculum_id ::
        collectOptions R curriculum_id offerings passedIC fic fp rest (icSeen ++ [ic])
    else
      collectOptions R curriculum_id offerings passedIC fic fp rest icSeen

/-- The major-elective slot loop for one term (over the slots whose declared
term matches): commit a slot only when its option list is non-empty, then
mark the slot placeholder satisfied in `forecast_passed` at once. -/
def majorPass (R : Resolver) (curriculum_id : String) (offerings : List String)
    (passedIC : List String) (fic : List (Option String)) (avail : List MajorCourse) :
    List Slot → Int → List String → Int × List String × List ForecastItem
  | [], pm, fp => (pm, fp, [])
  | slot :: rest, pm, fp =>
    if pm > 0 then
      let opts := collectOptions R curriculum_id offerings passedIC fic fp avail []
      if opts.isEmpty then
        majorPass R curriculum_id offerings passedIC fic avail rest pm fp
      else
        let r := majorPass R curriculum_id offerings passedIC fic avail rest (pm - 1)
          (sadd fp slot.placeholder)
        (r.1, r.2.1, .slotOpts slot.placeholder opts :: r.2.2)
    else majorPass R curriculum_id offerings passedIC fic avail rest pm fp

/-- The free-elective slot loop for one term: emit a `"free-elective"`
marker per remaining slot and mark the slot placeholder satisfied. -/
def freePass : List Slot → Int → List String → Int × List String × List ForecastItem
  | [], pf, fp => (pf, fp, [])
  | slot :: rest, pf, fp =>
    if pf > 0 then
      let r := freePass rest (pf - 1) (sadd fp slot.placeholder)
      (r.1, r.2.1, .text "free-elective" :: r.2.2)
    else freePass rest pf fp

/-- End-of-term update of `forecast_passed` from the scheduled items: dicts
with a truthy `course_id` add that id, plain strings add themselves, slot
dicts add nothing (their placeholder was already added). -/
def fpAfterItems (fp : List String) : List ForecastItem → List String
  | [] => fp
  | .course (.obj _ _ cid) :: rest =>
    fpAfterItems (if cid ≠ "" then sadd fp cid else fp) rest
  | .course (.raw cid) :: rest => fpAfterItems (sadd fp cid) rest
  | .text s :: rest => fpAfterItems (sadd fp s) rest
  | .slotOpts _ _ :: rest => fpAfterItems fp rest

/-- Everything the per-term step needs that does not change between terms. -/
structure SimParams where
  R : Resolver
  /-- `student_data["curriculum"]`, used for offerings and detail lookups. -/
  curriculum_id : String
  coreMap : List (String × CoreInfo)
  choiceMap : List (String × ChoiceInfo)
  majorSlots : List Slot
  freeSlots : List Slot
  avail : List MajorCourse
  passedIC : List String
  year : Int
  semester : Int
  /-- Enumeration order of the `retake_courses` set (`list(retake_courses)`);
  Python leaves it unspecified, the stock run uses the identity. -/
  enum : List String → List String

/-- The mutable loop state of `generate_forecast`'s 18-term simulation. -/
structure SimState where
  retakes : List String
  pendingCore : List String
  pendingChoices : List String
  pendingMajor : Int
  pendingFree : Int
  forecastPassed : List String
  forecastedIC : List (Option String)
  forecast : List ForecastEntry
deriving DecidableEq

/-- `sem_in_year` for loop index `i`. -/
def semInYear (semester : Int) (i : Nat) : Int :=
  (semester - 1 + (i : Int)).emod 3 + 1

/-- The `"YYYY-YYYY"` academic-year label for loop index `i`. -/
def acadYearLabel (year semester : Int) (i : Nat) : String :=
  let q := (semester - 1 + (i : Int)).fdiv 3
  toString (year + q) ++ "-" ++ toString (year + q + 1)

/-- `current_semester_num`, the absolute term number compared against the
curriculum's `semester` fields. -/
def absTermNum (year semester : Int) (i : Nat) : Int :=
  (year - 2023) * 3 + semInYear semester i + ((i / 3 : Nat) : Int) * 2

/-- Guard of the pending-core loop for one course. -/
def coreCond (P : SimParams) (offerings : List String) (n : Int) (fp : List String)
    (c : String) : Bool :=
  match alookup c P.coreMap with
  | some info => (info.semester == n) && subB info.pre fp && memB c offerings
  | none => false

/-- Guard of the retake loop for one course. -/
def retakeCond (P : SimParams) (offerings : List String) (fp : List String)
    (c : String) : Bool :=
  memB c offerings && subB (corePre P.coreMap c) fp

/-- Offerings resolved for loop index `i`: the term-type tag is `"s"` for
the short term (`sem_in_year == 3`), else the numeric string. -/
def termOfferings (P : SimParams) (i : Nat) : List String :=
  get_offerings P.R
    (if semInYear P.semester i = 3 then "s" else toString (semInYear P.semester i))
    P.curriculum_id

/-- The retake loop of term `i`. -/
def termRet (P : SimParams) (i : Nat) (st : SimState) :
    List String × List (Option String) × List ForecastItem :=
  schedulePass P.R P.curriculum_id P.passedIC
    (retakeCond P (termOfferings P i) st.forecastPassed)
    (P.enum st.retakes) st.forecastedIC

/-- The pending-core loop of term `i` (running after the retakes, on the
grown internal-code set). -/
def termCore (P : SimParams) (i : Nat) (st : SimState) :
    List String × List (Option String) × List ForecastItem :=
  schedulePass P.R P.curriculum_id P.passedIC
    (coreCond P (termOfferings P i) (absTermNum P.year P.semester i) st.forecastPassed)
    st.pendingCore (termRet P i st).2.1

/-- The pending-choices loop of term `i`. -/
def termChoi (P : SimParams) (i : Nat) (st : SimState) :
    List String × List ForecastItem :=
  choicePass P.choiceMap (absTermNum P.year P.semester i) st.forecastPassed st.pendingChoices

/-- The major-elective slot loop of term `i`. -/
def termMaj (P : SimParams) (i : Nat) (st : SimState) :
    Int × List String × List ForecastItem :=
  majorPass P.R P.curriculum_id (termOfferings P i) P.passedIC (termCore P i st).2.1 P.avail
    (P.majorSlots.filter (fun s => s.semester == absTermNum P.year P.semester i))
    st.pendingMajor st.forecastPassed

/-- The free-elective slot loop of term `i`. -/
def termFree (P : SimParams) (i : Nat) (st : SimState) :
    Int × List String × List ForecastItem :=
  freePass (P.freeSlots.filter (fun s => s.semester == absTermNum P.year P.semester i))
    st.pendingFree (termMaj P i st).2.1

/-- `courses_to_take` of term `i`, in scheduling order. -/
def termItems (P : SimParams) (i : Nat) (st : SimState) : List ForecastItem :=
  (termRet P i st).2.2 ++ (termCore P i st).2.2 ++ (termChoi P i st).2
    ++ (termMaj P i st).2.2 ++ (termFree P i st).2.2

/-- One iteration of the `for i in range(SEMESTERS_PER_YEAR * 6)` loop. -/
def termStep (P : SimParams) (i : Nat) (st : SimState) : SimState :=
  { retakes := (termRet P i st).1
    pendingCore := (termCore P i st).1
    pendingChoices := (termChoi P i st).1
    pendingMajor := (termMaj P i st).1
    pendingFree := (termFree P i st).1
    forecastPassed := fpAfterItems (termFree P i st).2.1 (termItems P i st)
    forecastedIC := (termCore P i st).2.1
    forecast :=
      if (termItems P i st).isEmpty then st.forecast
      else st.forecast
        ++ [⟨acadYearLabel P.year P.semester i,
             toString (semInYear P.semester i), termItems P i st⟩] }

/-- Run `k` term steps starting at loop index `i`. -/
def simFrom (P : SimParams) : Nat → Nat → SimState → SimState
  | 0, _, st => st
  | k + 1, i, st => simFrom P k (i + 1) (termStep P i st)

/-- The state after the first `k` simulated terms. -/
def stateAt (P : SimParams) (st0 : SimState) (k : Nat) : SimState :=
  simFrom P k 0 st0

/-- The per-student output record of `generate_forecast`. -/
structure Output where
  passed_courses : List String
  failed_courses_to_retake : List String
  pending_core_courses : List String
  pending_choice_placeholders : List String
  pending_major_electives : Int
  pending_free_electives : Int
  forecast : List ForecastEntry
deriving DecidableEq

/-- Assemble the fixed simulation parameters for one student. -/
def simParamsOf (enum : List String → List String) (R : Resolver) (curriculum_id : String)
    (curr : Curriculum) (prog : Progress) (cfg : Config) : SimParams :=
  { R := R
    curriculum_id := curriculum_id
    coreMap := coreMapOf curr
    choiceMap := choiceMapOf curr
    majorSlots := curr.major_electives.slots
    freeSlots := curr.free_electives.slots
    avail := curr.major_electives.courses.filter (fun c => !(memB c.course prog.majorPassed))
    passedIC := prog.passedIC
    year := cfg.current_year
    semester := cfg.current_semester
    enum := enum }

/-- The initial simulation state for one student. -/
def initStateOf (curr : Curriculum) (prog : Progress) : SimState :=
  { retakes := prog.failed
    pendingCore := ((coreMapOf curr).map Prod.fst).filter
      (fun c => !(memB c prog.passed) && !(memB c prog.failed))
    pendingChoices := ((choiceMapOf curr).map Prod.fst).filter
      (fun p => !(memB p prog.choices))
    pendingMajor := (curr.major_electives.slots.length : Int) - (prog.majorPassed.length : Int)
    pendingFree := (curr.free_electives.slots.length : Int) - prog.freeCount
    forecastPassed := unionL (unionL prog.passed prog.majorPassed) prog.choices
    forecastedIC := []
    forecast := [] }

/-- Build the returned record from the progress output and the final
simulation state. -/
def mkOutput (prog : Progress) (fin : SimState) : Output :=
  { passed_courses := sortList (unionL (unionL prog.passed prog.majorPassed) prog.choices)
    failed_courses_to_retake := sortList prog.failed
    pending_core_courses := sortList (unionL fin.pendingCore fin.retakes)
    pending_choice_placeholders := sortList fin.pendingChoices
    pending_major_electives := fin.pendingMajor
    pending_free_electives := fin.pendingFree
    forecast := fin.forecast }

/-- `generate_forecast(student_id, student_data, grade_order, resolver,
all_curricula)`, parameterised by the set-enumeration order `enum` (Python
iterates the `retake_courses` set in an order the inputs do not determine).
`none` is the structured `{"error": ...}` result for a falsy or unknown
curriculum id. -/
def generate_forecastOrd (enum : List String → List String) (go : GradeOrder) (R : Resolver)
    (all_curricula : List (String × Curriculum)) (cfg : Config) (sd : StudentData) :
    Option Output :=
  match sd.curriculum with
  | none => none
  | some curriculum_id =>
    if curriculum_id = "" then none
    else
      match alookup curriculum_id all_curricula with
      | none => none
      | some curr =>
        let prog := get_student_progress sd.courses curr go R
        let P := simParamsOf enum R curriculum_id curr prog cfg
        let st0 := initStateOf curr prog
        some (mkOutput prog (simFrom P 18 0 st0))

/-- The stock program: set enumeration in the canonical (insertion) order. -/
def generate_forecast (go : GradeOrder) (R : Resolver)
    (all_curricula : List (String × Curriculum)) (cfg : Config) (sd : StudentData) :
    Option Output :=
  generate_forecastOrd (fun l => l) go R all_curricula cfg sd

/-- The batch loop of `main`: one result per student, in batch order. -/
def runBatch (go : GradeOrder) (R : Resolver) (all_curricula : List (String × Curriculum))
    (cfg : Config) (students : List (String × StudentData)) :
    List (String × Option Output) :=
  students.map (fun p => (p.1, generate_forecast go R all_curricula cfg p.2))

/-! ## Characterization of canonical-course resolution -/

/-- An alias entry "matches" a student course id when the id occurs among
the separator-split alternatives of its curriculum-specific code or of its
default code. -/
def entryMatchesB (curriculum_id sid : String) (e : AliasEntry) : Bool :=
  memB sid (splitSlash (entryCurrCode e curriculum_id))
    || memB sid (splitSlash (entryDefaultCode e))

/-- The value the search returns for a matching entry: the full
curriculum-specific code on a curriculum match, else the curriculum code if
non-empty, else the default code. -/
def entryMatchResult (e : AliasEntry) (curriculum_id sid : String) : String :=
  if memB sid (splitSlash (entryCurrCode e curriculum_id)) then
    entryCurrCode e curriculum_id
  else if entryCurrCode e curriculum_id ≠ "" then entryCurrCode e curriculum_id
  else entryDefaultCode e

/-- Single-pass first-match semantics: the first entry in table order that
matches either way decides the result; no entry matching yields the id
itself. -/
def canonicalByFirstMatch (aliases : List (String × AliasEntry)) (sid curriculum_id : String) :
    String :=
  match aliases.find? (fun p => entryMatchesB curriculum_id sid p.2) with
  | some p => entryMatchResult p.2 curriculum_id sid
  | none => sid

theorem canonicalSearch_eq_firstMatch (curriculum_id sid : String)
    (aliases : List (String × AliasEntry)) :
    canonicalSearch curriculum_id sid aliases = canonicalByFirstMatch aliases sid curriculum_id := by
  induction aliases with
  | nil => rfl
  | cons p rest ih =>
    by_cases hc : sid ∈ splitSlash (entryCurrCode p.2 curriculum_id)
    · have hm : entryMatchesB curriculum_id sid p.2 = true := by
        rw [entryMatchesB, (memB_iff _ _).mpr hc, Bool.true_or]
      have hf : List.find? (fun q => entryMatchesB curriculum_id sid q.2) (p :: rest)
          = some p := List.find?_cons_of_pos rest hm
      rw [canonicalByFirstMatch, hf]
      simp only [canonicalSearch]
      rw [if_pos hc, entryMatchResult, if_pos ((memB_iff _ _).mpr hc)]
    · have hcB : memB sid (splitSlash (entryCurrCode p.2 curriculum_id)) = false :=
        memB_eq_false.mpr hc
      by_cases hd : sid ∈ splitSlash (entryDefaultCode p.2)
      · have hm : entryMatchesB curriculum_id sid p.2 = true := by
          rw [entryMatchesB, (memB_iff _ _).mpr hd, hcB, Bool.false_or]
        have hf : List.find? (fun q => entryMatchesB curriculum_id sid q.2) (p :: rest)
            = some p := List.find?_cons_of_pos rest hm
        rw [canonicalByFirstMatch, hf]
        simp only [canonicalSearch]
        rw [if_neg hc, if_pos hd, entryMatchResult, hcB]
        simp only [Bool.false_eq_true, if_false]
      · have hdB : memB sid (splitSlash (entryDefaultCode p.2)) = false :=
          memB_eq_false.mpr hd
        have hm : entryMatchesB curriculum_id sid p.2 = false := by
          rw [entryMatchesB, hcB, hdB, Bool.or_self]
        have hf : List.find? (fun q => entryMatchesB curriculum_id sid q.2) (p :: rest)
            = List.find? (fun q => entryMatchesB curriculum_id sid q.2) rest :=
          List.find?_cons_of_neg rest (by rw [hm]; exact Bool.false_ne_true)
        simp only [canonicalSearch]
        rw [if_neg hc, if_neg hd, ih, canonicalByFirstMatch, canonicalByFirstMatch, hf]

/-! ## Claim C4 — priority between curriculum-specific and default matches -/

/-- Alias table for the C4 counterexample: the first entry matches `"X"`
only through its default code, the second entry's curriculum-specific code
for `"K"` contains `"X"`. -/
def c4Aliases : List (String × AliasEntry) :=
  [("1", ⟨[("default", "X")]⟩), ("2", ⟨[("K", "X2/X"), ("default", "Z")]⟩)]

/-- C4 counterexample: claim C4 predicts that the curriculum-specific match
of the second entry (code `"X2/X"`) wins over the first entry's default
match, but `get_canonical_course` scans entries one at a time and settles on
the first entry's default code `"X"`. -/
theorem claim_C4_counterexample :
    entryCurrCode (AliasEntry.mk [("K", "X2/X"), ("default", "Z")]) "K" = "X2/X"
      ∧ memB "X" (splitSlash "X2/X") = true
      ∧ (∃ p, c4Aliases.find?
          (fun p => memB "X" (splitSlash (entryCurrCode p.2 "K"))) = some p
          ∧ entryCurrCode p.2 "K" = "X2/X")
      ∧ get_canonical_course ⟨c4Aliases, [], [], []⟩ "X" "K" = "X"
      ∧ ("X" : String) ≠ "X2/X" := by
  refine ⟨by decide, by decide, ⟨("2", ⟨[("K", "X2/X"), ("default", "Z")]⟩), by decide, by decide⟩,
    by decide, by decide⟩

/-- C4 (amended): canonical-course resolution is a single pass in table
order; within each entry the curriculum-specific match is tried before the
default match, and the first entry matching either way decides the result
(so an earlier entry's default match beats a later entry's
curriculum-specific match); if no entry matches, the id is returned
unchanged. -/
theorem claim_C4 (R : Resolver) (sid curriculum_id : String) :
    get_canonical_course R sid curriculum_id
      = canonicalByFirstMatch R.aliases sid curriculum_id :=
  canonicalSearch_eq_firstMatch curriculum_id sid R.aliases

/-! ## Claim C5 — canonicalization round-trip -/

/-- Alias table for the C5 counterexample: one entry whose
curriculum-specific code for `"K"` is the joined string `"X/Y"`. -/
def c5Aliases : List (String × AliasEntry) := [("7", ⟨[("K", "X/Y")]⟩)]

/-- C5 counterexample: `"X"` is listed in an entry's curriculum-specific
code for curriculum `"K"`, yet resolving `"X"` returns the full joined code
string `"X/Y"`, not `"X"` unchanged. -/
theorem claim_C5_counterexample :
    memB "X" (splitSlash (entryCurrCode (AliasEntry.mk [("K", "X/Y")]) "K")) = true
      ∧ get_canonical_course ⟨c5Aliases, [], [], []⟩ "X" "K" = "X/Y"
      ∧ ("X/Y" : String) ≠ "X" := by
  refine ⟨by decide, by decide, by decide⟩

/-- C5 (amended): when the first entry matching a code (curriculum-specific
or default, in table order) matches it through its curriculum-specific
code, resolution returns that entry's full curriculum-specific code string
— which equals the input only when that string is exactly the input; and a
code listed in no entry (neither among the curriculum's codes nor the
defaults) resolves to itself unchanged. -/
theorem claim_C5 (R : Resolver) (sid curriculum_id : String) :
    (∀ p, R.aliases.find? (fun q => entryMatchesB curriculum_id sid q.2) = some p →
      memB sid (splitSlash (entryCurrCode p.2 curriculum_id)) = true →
      get_canonical_course R sid curriculum_id = entryCurrCode p.2 curriculum_id)
    ∧ ((∀ p ∈ R.aliases, entryMatchesB curriculum_id sid p.2 = false) →
      get_canonical_course R sid curriculum_id = sid) := by
  constructor
  · intro p hfind hmem
    rw [show get_canonical_course R sid curriculum_id
        = canonicalByFirstMatch R.aliases sid curriculum_id from
      canonicalSearch_eq_firstMatch curriculum_id sid R.aliases]
    rw [canonicalByFirstMatch, hfind]
    simp [entryMatchResult, hmem]
  · intro hnone
    rw [show get_canonical_course R sid curriculum_id
        = canonicalByFirstMatch R.aliases sid curriculum_id from
      canonicalSearch_eq_firstMatch curriculum_id sid R.aliases]
    rw [canonicalByFirstMatch, List.find?_eq_none.mpr]
    intro p hp
    simp [hnone p hp]

/-- C5 witness: the amended statement applied to the concrete table
`c5Aliases` — the listed code `"X"` resolves to the full string `"X/Y"`
and the unlisted code `"Q"` resolves to itself. -/
theorem claim_C5_witness :
    get_canonical_course ⟨c5Aliases, [], [], []⟩ "X" "K" = "X/Y"
      ∧ get_canonical_course ⟨c5Aliases, [], [], []⟩ "Q" "K" = "Q" := by
  constructor
  · exact (claim_C5 ⟨c5Aliases, [], [], []⟩ "X" "K").1
      ("7", ⟨[("K", "X/Y")]⟩) (by decide) (by decide)
  · exact (claim_C5 ⟨c5Aliases, [], [], []⟩ "Q" "K").2 (by decide)

/-! ## Claim C7 — unknown grade labels -/

/-- C7 counterexample: with grade order `{F: 0, D: 1}`, the unknown label
`"Z"` ranks 0 and the passing check against the configured passing grade
`"F"` (rank 0) succeeds, because `0 >= 0`. -/
theorem claim_C7_counterexample :
    alookup "Z" [("F", (0 : Int)), ("D", 1)] = none
      ∧ (alookup "F" [("F", (0 : Int)), ("D", 1)]).isSome = true
      ∧ is_grade_passing [("F", 0), ("D", 1)] (some "Z") "F" = true := by
  refine ⟨by decide, by decide, by decide⟩

/-- C7 (amended): a grade label absent from the grade-order mapping ranks
0, and the passing check rejects it against every passing grade of positive
rank; against a passing grade of rank 0 (such as the bottom grade, or any
unconfigured label) the check succeeds. -/
theorem claim_C7 (go : GradeOrder) (g pg : String) (hg : alookup g go = none) :
    gradeRank go (some g) = 0
      ∧ (0 < gradeRank go (some pg) → is_grade_passing go (some g) pg = false)
      ∧ (gradeRank go (some pg) = 0 → is_grade_passing go (some g) pg = true) := by
  have hr : gradeRank go (some g) = 0 := by simp [gradeRank, hg]
  refine ⟨hr, ?_, ?_⟩
  · intro hpos
    rw [is_grade_passing, hr]
    simp only [ge_iff_le, decide_eq_false_iff_not, not_le]
    exact hpos
  · intro hz
    rw [is_grade_passing, hr, hz]
    simp

/-- C7 witness: the amended statement applied to the grade order
`{F: 0, D: 1}` and the unknown label `"Z"`. -/
theorem claim_C7_witness :
    gradeRank [("F", (0 : Int)), ("D", 1)] (some "Z") = 0
      ∧ is_grade_passing [("F", 0), ("D", 1)] (some "Z") "D" = false
      ∧ is_grade_passing [("F", 0), ("D", 1)] (some "Z") "F" = true := by
  refine ⟨(claim_C7 [("F", 0), ("D", 1)] "Z" "D" (by decide)).1,
    (claim_C7 [("F", 0), ("D", 1)] "Z" "D" (by decide)).2.1 (by decide),
    (claim_C7 [("F", 0), ("D", 1)] "Z" "F" (by decide)).2.2 (by decide)⟩

/-! ## Claim C8 — duplicate course codes in the alias table -/

/-- An alias entry "defines" a course id when the id occurs among the split
codes of one of its non-`course_names`, non-empty values (exactly the ids
the constructor's pre-build loop records for that entry). -/
def entryDefines (e : AliasEntry) (cid : String) : Bool :=
  e.codes.any
    (fun kv => if kv.1 = "course_names" ∨ kv.2 = "" then false else memB cid (splitSlash kv.2))

/-- The first alias-table entry that defines a course id. -/
def firstDefining : List (String × AliasEntry) → String → Option (String × AliasEntry)
  | [], _ => none
  | p :: rest, cid =>
    if entryDefines p.2 cid then some p else firstDefining rest cid

/-- The last alias-table entry that defines a course id. -/
def lastDefining : List (String × AliasEntry) → String → Option (String × AliasEntry)
  | [], _ => none
  | p :: rest, cid =>
    match lastDefining rest cid with
    | some q => some q
    | none => if entryDefines p.2 cid then some p else none

theorem alookup_foldl_dictInsert (cid ic : String) (l : List String)
    (m : List (String × String)) :
    alookup cid (l.foldl (fun m c => dictInsert m c ic) m)
      = if memB cid l then some ic else alookup cid m := by
  induction l generalizing m with
  | nil => simp [memB]
  | cons c t ih =>
    show alookup cid (t.foldl (fun m c => dictInsert m c ic) (dictInsert m c ic)) = _
    rw [ih, alookup_dictInsert]
    by_cases hct : memB cid t = true
    · simp [memB, hct]
    · rw [Bool.not_eq_true] at hct
      by_cases hc : cid = c
      · simp [memB, hc, hct]
      · simp [memB, hc, hct]

theorem alookup_internalInsertEntry (cid ic : String) (e : AliasEntry)
    (m : List (String × String)) :
    alookup cid (internalInsertEntry m ic e)
      = if entryDefines e cid then some ic else alookup cid m := by
  rw [internalInsertEntry]
  obtain ⟨codes⟩ := e
  show alookup cid (codes.foldl _ m) = if entryDefines ⟨codes⟩ cid then _ else _
  induction codes generalizing m with
  | nil => simp [entryDefines]
  | cons kv t ih =>
    simp only [List.foldl_cons]
    by_cases hskip : kv.1 = "course_names" ∨ kv.2 = ""
    · rw [if_pos hskip, ih]
      have : entryDefines ⟨kv :: t⟩ cid = entryDefines ⟨t⟩ cid := by
        simp only [entryDefines, List.any_cons, if_pos hskip, Bool.false_or]
      rw [this]
    · rw [if_neg hskip, ih, alookup_foldl_dictInsert]
      have : entryDefines ⟨kv :: t⟩ cid
          = (memB cid (splitSlash kv.2) || entryDefines ⟨t⟩ cid) := by
        simp only [entryDefines, List.any_cons, if_neg hskip]
      rw [this]
      by_cases ht : entryDefines ⟨t⟩ cid = true
      · simp [ht]
      · rw [Bool.not_eq_true] at ht
        by_cases hm : memB cid (splitSlash kv.2) = true
        · simp [ht, hm]
        · rw [Bool.not_eq_true] at hm
          simp [ht, hm]

theorem alookup_buildInternalMap_aux (cid : String) (A : List (String × AliasEntry))
    (m : List (String × String)) :
    alookup cid (A.foldl (fun m p => internalInsertEntry m p.1 p.2) m)
      = match lastDefining A cid with
        | some q => some q.1
        | none => alookup cid m := by
  induction A generalizing m with
  | nil => simp [lastDefining]
  | cons p rest ih =>
    simp only [List.foldl_cons]
    rw [ih, lastDefining]
    cases hr : lastDefining rest cid with
    | some q => rfl
    | none =>
      rw [alookup_internalInsertEntry]
      by_cases hd : entryDefines p.2 cid = true
      · simp [hd]
      · rw [Bool.not_eq_true] at hd
        simp [hd]

/-- The identity map resolves a course id to the last alias entry in table
order that defines it (plain dict assignment overwrites). -/
theorem get_internal_code_eq_lastDefining (R : Resolver) (cid : String) :
    get_internal_code R cid = (lastDefining R.aliases cid).map (fun q => q.1) := by
  rw [get_internal_code, buildInternalMap, alookup_buildInternalMap_aux]
  cases lastDefining R.aliases cid <;> simp [alookup]

theorem alookup_foldl_dictInsertIfAbsent (cid : String) (v : Details) (l : List String)
    (m : List (String × Details)) :
    alookup cid (l.foldl (fun m c => dictInsertIfAbsent m c v) m)
      = match alookup cid m with
        | some w => some w
        | none => if memB cid l then some v else none := by
  induction l generalizing m with
  | nil =>
    simp only [List.foldl_nil]
    cases hm : alookup cid m with
    | some w => rfl
    | none => simp [memB]
  | cons c t ih =>
    show alookup cid (t.foldl _ (dictInsertIfAbsent m c v)) = _
    rw [ih]
    cases hm : alookup cid m with
    | some w =>
      rw [alookup_dictInsertIfAbsent_of_some hm]
    | none =>
      by_cases hc : cid = c
      · subst hc
        rw [alookup_dictInsertIfAbsent_self_of_none hm]
        simp [memB]
      · rw [alookup_dictInsertIfAbsent_other_of_none hm hc]
        simp [memB, hc]

theorem alookup_foldl_codes_dIIA (cid : String) (v : Details)
    (codes : List (String × String)) (m : List (String × Details)) :
    alookup cid
        (codes.foldl
          (fun m kv =>
            if kv.1 = "course_names" ∨ kv.2 = "" then m
            else (splitSlash kv.2).foldl (fun m c => dictInsertIfAbsent m c v) m)
          m)
      = match alookup cid m with
        | some w => some w
        | none => if entryDefines ⟨codes⟩ cid then some v else none := by
  induction codes generalizing m with
  | nil =>
    simp only [List.foldl_nil]
    cases hm : alookup cid m with
    | some w => rfl
    | none => simp [entryDefines]
  | cons kv t ih =>
    simp only [List.foldl_cons]
    by_cases hskip : kv.1 = "course_names" ∨ kv.2 = ""
    · rw [if_pos hskip, ih]
      have : entryDefines ⟨kv :: t⟩ cid = entryDefines ⟨t⟩ cid := by
        simp only [entryDefines, List.any_cons, if_pos hskip, Bool.false_or]
      rw [this]
    · rw [if_neg hskip, ih, alookup_foldl_dictInsertIfAbsent]
      have hdef : entryDefines ⟨kv :: t⟩ cid
          = (memB cid (splitSlash kv.2) || entryDefines ⟨t⟩ cid) := by
        simp only [entryDefines, List.any_cons, if_neg hskip]
      rw [hdef]
      cases hm : alookup cid m with
      | some w => rfl
      | none =>
        by_cases hkv : memB cid (splitSlash kv.2) = true
        · simp [hkv]
        · rw [Bool.not_eq_true] at hkv
          by_cases ht : entryDefines ⟨t⟩ cid = true
          · simp [hkv, ht]
          · rw [Bool.not_eq_true] at ht
            simp [hkv, ht]

theorem alookup_detailsInsertEntry (cid ic : String) (e : AliasEntry)
    (m : List (String × Details)) :
    alookup cid (detailsInsertEntry m ic e)
      = match alookup cid m with
        | some w => some w
        | none =>
          if entryDefines e cid then some ⟨ic, courseNamesOf e⟩ else none := by
  rw [detailsInsertEntry]
  exact alookup_foldl_codes_dIIA cid ⟨ic, courseNamesOf e⟩ e.codes m

theorem alookup_buildDetailsMap_aux (cid : String) (A : List (String × AliasEntry))
    (m : List (String × Details)) :
    alookup cid (A.foldl (fun m p => detailsInsertEntry m p.1 p.2) m)
      = match alookup cid m with
        | some w => some w
        | none =>
          (firstDefining A cid).map (fun q => (⟨q.1, courseNamesOf q.2⟩ : Details)) := by
  induction A generalizing m with
  | nil =>
    simp only [List.foldl_nil]
    cases hm : alookup cid m with
    | some w => rfl
    | none => simp [firstDefining]
  | cons p rest ih =>
    simp only [List.foldl_cons]
    rw [ih, alookup_detailsInsertEntry, firstDefining]
    cases hm : alookup cid m with
    | some w => rfl
    | none =>
      by_cases hd : entryDefines p.2 cid = true
      · simp [hd]
      · rw [Bool.not_eq_true] at hd
        simp [hd]

/-- The detail map resolves a course id to the first alias entry in table
order that defines it (`if course_id not in ...` keeps the first writer). -/
theorem details_eq_firstDefining (R : Resolver) (cid : String) :
    alookup cid (buildDetailsMap R.aliases)
      = (firstDefining R.aliases cid).map (fun q => (⟨q.1, courseNamesOf q.2⟩ : Details)) := by
  rw [buildDetailsMap, alookup_buildDetailsMap_aux]
  rfl

theorem firstDefining_mem {A : List (String × AliasEntry)} {cid : String}
    {p : String × AliasEntry} (h : firstDefining A cid = some p) :
    p ∈ A ∧ entryDefines p.2 cid = true := by
  induction A with
  | nil => simp [firstDefining] at h
  | cons q rest ih =>
    rw [firstDefining] at h
    by_cases hd : entryDefines q.2 cid = true
    · rw [if_pos hd] at h
      cases h
      exact ⟨List.mem_cons_self _ _, hd⟩
    · rw [if_neg hd] at h
      obtain ⟨hm, he⟩ := ih h
      exact ⟨List.mem_cons_of_mem _ hm, he⟩

theorem lastDefining_mem {A : List (String × AliasEntry)} {cid : String}
    {p : String × AliasEntry} (h : lastDefining A cid = some p) :
    p ∈ A ∧ entryDefines p.2 cid = true := by
  induction A with
  | nil => simp [lastDefining] at h
  | cons q rest ih =>
    rw [lastDefining] at h
    cases hr : lastDefining rest cid with
    | some w =>
      rw [hr] at h
      cases h
      obtain ⟨hm, he⟩ := ih hr
      exact ⟨List.mem_cons_of_mem _ hm, he⟩
    | none =>
      rw [hr] at h
      by_cases hd : entryDefines q.2 cid = true
      · rw [if_pos hd] at h
        cases h
        exact ⟨List.mem_cons_self _ _, hd⟩
      · rw [if_neg hd] at h
        cases h

theorem firstDefining_none_iff_lastDefining_none {A : List (String × AliasEntry)}
    {cid : String} : firstDefining A cid = none ↔ lastDefining A cid = none := by
  induction A with
  | nil => simp [firstDefining, lastDefining]
  | cons q rest ih =>
    rw [firstDefining, lastDefining]
    by_cases hd : entryDefines q.2 cid = true
    · rw [if_pos hd]
      constructor
      · intro h
        cases h
      · intro h
        cases hr : lastDefining rest cid with
        | some w => rw [hr] at h; cases h
        | none => rw [hr, if_pos hd] at h; cases h
    · rw [if_neg hd, ih]
      cases hr : lastDefining rest cid with
      | some w => simp
      | none => simp [if_neg hd]

/-- Alias table for the C8 counterexample: the code `"X"` is defined by two
entries with different internal codes. -/
def c8Aliases : List (String × AliasEntry) :=
  [("1", ⟨[("default", "X")]⟩), ("2", ⟨[("default", "X")]⟩)]

/-- C8 counterexample: with `"X"` defined by entries `"1"` and `"2"`, the
detail lookup reports internal code `"1"` (first entry wins) while the
identity lookup reports `"2"` (last assignment wins), so the two lookups
disagree. -/
theorem claim_C8_counterexample :
    get_course_details ⟨c8Aliases, [], [], []⟩ "X" "K" = .obj "N/A" "1" "X"
      ∧ get_internal_code ⟨c8Aliases, [], [], []⟩ "X" = some "2"
      ∧ ("1" : String) ≠ "2" := by
  refine ⟨by decide, by decide, by decide⟩

/-- C8 (amended): the detail lookup resolves a duplicated course code to
the first alias entry in table order that defines it, while the identity
lookup resolves it to the last such entry; consequently the two lookups
report the same internal code whenever every pair of entries defining the
code carries the same internal code (in particular whenever no code is
defined by more than one entry). -/
theorem claim_C8 (R : Resolver) (cid curriculum_id : String) :
    (get_course_details R cid curriculum_id
      = match firstDefining R.aliases cid with
        | some q => .obj (courseNamesOf q.2) q.1 cid
        | none => .raw cid)
    ∧ get_internal_code R cid = (lastDefining R.aliases cid).map (fun q => q.1)
    ∧ ((∀ p ∈ R.aliases, ∀ q ∈ R.aliases,
          entryDefines p.2 cid = true → entryDefines q.2 cid = true → p.1 = q.1) →
        (match get_course_details R cid curriculum_id with
          | .obj _ ic _ => some ic
          | .raw _ => none)
          = get_internal_code R cid) := by
  have hdet : get_course_details R cid curriculum_id
      = match firstDefining R.aliases cid with
        | some q => .obj (courseNamesOf q.2) q.1 cid
        | none => .raw cid := by
    rw [get_course_details, details_eq_firstDefining]
    cases firstDefining R.aliases cid <;> rfl
  have hint : get_internal_code R cid = (lastDefining R.aliases cid).map (fun q => q.1) :=
    get_internal_code_eq_lastDefining R cid
  refine ⟨hdet, hint, ?_⟩
  intro hagree
  rw [hdet, hint]
  cases hf : firstDefining R.aliases cid with
  | none =>
    rw [firstDefining_none_iff_lastDefining_none.mp hf]
    rfl
  | some p =>
    cases hl : lastDefining R.aliases cid with
    | none =>
      rw [firstDefining_none_iff_lastDefining_none.mpr hl] at hf
      cases hf
    | some q =>
      obtain ⟨hpm, hpd⟩ := firstDefining_mem hf
      obtain ⟨hqm, hqd⟩ := lastDefining_mem hl
      show some p.1 = some q.1
      rw [hagree p hpm q hqm hpd hqd]

/-- C8 witness: the amended statement applied to the duplicated table
`c8Aliases` (characterizations) and to a duplicate-free table
(agreement of the two lookups). -/
theorem claim_C8_witness :
    get_internal_code ⟨c8Aliases, [], [], []⟩ "X"
        = (lastDefining c8Aliases "X").map (fun q => q.1)
      ∧ (match get_course_details ⟨[("9", ⟨[("default", "X")]⟩)], [], [], []⟩ "X" "K" with
          | .obj _ ic _ => some ic
          | .raw _ => none)
          = get_internal_code ⟨[("9", ⟨[("default", "X")]⟩)], [], [], []⟩ "X" := by
  constructor
  · exact (claim_C8 ⟨c8Aliases, [], [], []⟩ "X" "K").2.1
  · exact (claim_C8 ⟨[("9", ⟨[("default", "X")]⟩)], [], [], []⟩ "X" "K").2.2 (by decide)

/-! ## Destructuring a successful forecast run -/

theorem generate_forecastOrd_eq_some {enum : List String → List String} {go : GradeOrder}
    {R : Resolver} {AC : List (String × Curriculum)} {cfg : Config} {sd : StudentData}
    {out : Output} (h : generate_forecastOrd enum go R AC cfg sd = some out) :
    ∃ k curr, sd.curriculum = some k ∧ k ≠ "" ∧ alookup k AC = some curr ∧
      out = mkOutput (get_student_progress sd.courses curr go R)
        (simFrom (simParamsOf enum R k curr (get_student_progress sd.courses curr go R) cfg)
          18 0 (initStateOf curr (get_student_progress sd.courses curr go R))) := by
  cases hsc : sd.curriculum with
  | none => rw [generate_forecastOrd, hsc] at h; cases h
  | some k =>
    rw [generate_forecastOrd, hsc] at h
    dsimp only at h
    by_cases hk : k = ""
    · rw [if_pos hk] at h; cases h
    · rw [if_neg hk] at h
      cases hac : alookup k AC with
      | none => rw [hac] at h; cases h
      | some curr =>
        rw [hac] at h
        dsimp only at h
        injection h with h
        exact ⟨k, curr, rfl, hk, hac, h.symm⟩

/-! ## Claim C3 — the free-elective counter -/

/-- Curriculum for the C3 run: no requirements except one free-elective
slot. -/
def c3curr : Curriculum := ⟨"K2", [], ⟨[], [], none⟩, ⟨[⟨"fe", 1⟩], none⟩⟩

/-- Grade order for the C3 run. -/
def c3go : GradeOrder := [("A", 4), ("D", 1)]

/-- Student for the C3 run: one passing course matching no requirement. -/
def c3sd : StudentData := ⟨some "K2", [("Z", ⟨some "A"⟩)]⟩

/-- C3: the completed course `"Z"` matches no core requirement, no
major-elective pool entry and no choice group, and its grade passes the
free-elective passing grade, yet `get_student_progress` reports a
free-elective pass count of `0` (the source initialises
`free_electives_passed_count = 0` and never increments it), so the
remaining-slot count before simulation is the full slot count `1` instead
of `0`. -/
theorem claim_C3 :
    get_canonical_course ⟨[], [], [], []⟩ "Z" "K2" = "Z"
      ∧ alookup "Z" (coreMapOf c3curr) = none
      ∧ alookup "Z" (majorMapOf c3curr) = none
      ∧ findChoiceGroup "Z" (choiceMapOf c3curr) = none
      ∧ is_grade_passing c3go (some "A") (c3curr.free_electives.pg.getD "D") = true
      ∧ (get_student_progress c3sd.courses c3curr c3go ⟨[], [], [], []⟩).freeCount = 0
      ∧ (initStateOf c3curr
          (get_student_progress c3sd.courses c3curr c3go ⟨[], [], [], []⟩)).pendingFree = 1 := by
  refine ⟨by decide, by decide, by decide, by decide, by decide, by decide, by decide⟩

/-! ## Claim C6 — courses without an internal code -/

/-- Resolver for the C6 run: two alias entries whose only code strings sit
under the `course_names` key, which the internal-code map build skips, so
the codes `"A"` and `"B"` have no internal code while still being offered
to a curriculum whose id collides with that key. -/
def c6R : Resolver :=
  ⟨[("10", ⟨[("course_names", "A")]⟩), ("11", ⟨[("course_names", "B")]⟩)],
    ["10", "11"], ["10", "11"], ["10", "11"]⟩

/-- Curriculum for the C6 run: two core courses with no prerequisites. -/
def c6curr : Curriculum :=
  ⟨"course_names", [.core "A" ⟨none, [], 99⟩, .core "B" ⟨none, [], 99⟩],
    ⟨[], [], none⟩, ⟨[], none⟩⟩

/-- Grade order for the C6 run. -/
def c6go : GradeOrder := [("F", 0), ("D", 1)]

/-- Student for the C6 run: failed both core courses, so both are retakes. -/
def c6sd : StudentData := ⟨some "course_names", [("A", ⟨some "F"⟩), ("B", ⟨some "F"⟩)]⟩

/-- C6: both `"A"` and `"B"` lack an internal code and are offered in every
term with no prerequisites; scheduling `"A"` records `None` in the
already-forecast internal-code set, after which the dedup check blocks
`"B"` in every remaining term: only `"A"` is ever scheduled and `"B"` stays
in the pending-core output. -/
theorem claim_C6 :
    get_internal_code c6R "A" = none
      ∧ get_internal_code c6R "B" = none
      ∧ memB "B" (get_offerings c6R "1" "course_names") = true
      ∧ memB "B" (get_offerings c6R "2" "course_names") = true
      ∧ memB "B" (get_offerings c6R "s" "course_names") = true
      ∧ corePre (coreMapOf c6curr) "B" = []
      ∧ (generate_forecast c6go c6R [("course_names", c6curr)] ⟨2023, 1⟩ c6sd).map
          (fun o => (o.pending_core_courses, o.forecast.map (fun e => e.courses)))
        = some (["B"], [[.course (.raw "A")]]) := by
  refine ⟨by decide, by decide, by decide, by decide, by decide, by decide, by decide⟩

/-! ## Claim C9 — determinism and batch-order independence -/

/-- Resolver for the C9 run. -/
def c9R : Resolver :=
  ⟨[("1", ⟨[("K4", "A")]⟩), ("2", ⟨[("K4", "B")]⟩)], ["1", "2"], ["1", "2"], ["1", "2"]⟩

/-- Curriculum for the C9 run: two independent core courses. -/
def c9curr : Curriculum :=
  ⟨"K4", [.core "A" ⟨none, [], 1⟩, .core "B" ⟨none, [], 1⟩], ⟨[], [], none⟩, ⟨[], none⟩⟩

/-- Grade order for the C9 run. -/
def c9go : GradeOrder := [("F", 0), ("D", 1)]

/-- Student for the C9 run: failed both core courses. -/
def c9sd : StudentData := ⟨some "K4", [("A", ⟨some "F"⟩), ("B", ⟨some "F"⟩)]⟩

/-- C9 counterexample: the retake set `{A, B}` enumerated in its two
possible orders (both orders enumerate the same set) yields two different
results — the items inside the first forecast term swap — so identical
inputs do not determine the output: Python's set-iteration order is not a
function of the inputs. -/
theorem claim_C9_counterexample :
    (["A", "B"] : List String).reverse.Perm ["A", "B"]
      ∧ generate_forecastOrd (fun l => l) c9go c9R [("K4", c9curr)] ⟨2023, 1⟩ c9sd
        ≠ generate_forecastOrd List.reverse c9go c9R [("K4", c9curr)] ⟨2023, 1⟩ c9sd := by
  refine ⟨by decide, by decide⟩

/-- C9 (amended): with the set-enumeration order fixed, each student's
entry in the batch output is exactly the standalone forecast computed from
that student's own data — the batch iteration order over students does not
affect any individual student's result — and permuting the student list
only permutes the output list. -/
theorem claim_C9 (go : GradeOrder) (R : Resolver) (AC : List (String × Curriculum))
    (cfg : Config) (students : List (String × StudentData)) (sid : String) (sd : StudentData)
    (h : (sid, sd) ∈ students) :
    (sid, generate_forecast go R AC cfg sd) ∈ runBatch go R AC cfg students
      ∧ ∀ students', students.Perm students' →
        (runBatch go R AC cfg students).Perm (runBatch go R AC cfg students') := by
  constructor
  · have := List.mem_map_of_mem (fun p : String × StudentData =>
      (p.1, generate_forecast go R AC cfg p.2)) h
    exact this
  · intro students' hperm
    exact hperm.map _

/-- C9 witness: the amended statement applied to a concrete two-student
batch. -/
theorem claim_C9_witness :
    ("s1", generate_forecast c9go c9R [("K4", c9curr)] ⟨2023, 1⟩ c9sd)
        ∈ runBatch c9go c9R [("K4", c9curr)] ⟨2023, 1⟩ [("s1", c9sd), ("s2", c9sd)]
      ∧ (runBatch c9go c9R [("K4", c9curr)] ⟨2023, 1⟩ [("s1", c9sd), ("s2", c9sd)]).Perm
          (runBatch c9go c9R [("K4", c9curr)] ⟨2023, 1⟩ [("s2", c9sd), ("s1", c9sd)]) := by
  refine ⟨?_, ?_⟩
  · exact (claim_C9 c9go c9R [("K4", c9curr)] ⟨2023, 1⟩ [("s1", c9sd), ("s2", c9sd)]
      "s1" c9sd (by decide)).1
  · exact (claim_C9 c9go c9R [("K4", c9curr)] ⟨2023, 1⟩ [("s1", c9sd), ("s2", c9sd)]
      "s1" c9sd (by decide)).2 [("s2", c9sd), ("s1", c9sd)] (by decide)

/-! ## Claim C10 — term labels and entry emission -/

theorem semInYear_cases (s : Int) (i : Nat) :
    semInYear s i = 1 ∨ semInYear s i = 2 ∨ semInYear s i = 3 := by
  have h0 : 0 ≤ (s - 1 + (i : Int)).emod 3 := Int.emod_nonneg _ (by norm_num)
  have h3 : (s - 1 + (i : Int)).emod 3 < 3 := Int.emod_lt_of_pos _ (by norm_num)
  rw [semInYear]
  omega

theorem termStep_forecast (P : SimParams) (i : Nat) (st : SimState) :
    (termStep P i st).forecast =
      if (termItems P i st).isEmpty then st.forecast
      else st.forecast
        ++ [⟨acadYearLabel P.year P.semester i,
             toString (semInYear P.semester i), termItems P i st⟩] := rfl

theorem mem_termStep_forecast {P : SimParams} {i : Nat} {st : SimState} {e : ForecastEntry}
    (h : e ∈ (termStep P i st).forecast) :
    e ∈ st.forecast
      ∨ (e.courses ≠ [] ∧ e.semester = toString (semInYear P.semester i)) := by
  rw [termStep_forecast] at h
  split at h
  · exact Or.inl h
  · next hne =>
    rw [List.mem_append] at h
    rcases h with h | h
    · exact Or.inl h
    · rw [List.mem_singleton] at h
      subst h
      refine Or.inr ⟨?_, rfl⟩
      intro hc
      exact hne (by rw [List.isEmpty_iff]; exact hc)

theorem mem_simFrom_forecast {P : SimParams} :
    ∀ (k i : Nat) (st : SimState) (e : ForecastEntry), e ∈ (simFrom P k i st).forecast →
      e ∈ st.forecast
        ∨ (e.courses ≠ [] ∧ ∃ j, e.semester = toString (semInYear P.semester j)) := by
  intro k
  induction k with
  | zero => intro i st e h; exact Or.inl h
  | succ n ih =>
    intro i st e h
    rw [simFrom] at h
    rcases ih (i + 1) (termStep P i st) e h with h' | h'
    · rcases mem_termStep_forecast h' with h'' | h''
      · exact Or.inl h''
      · exact Or.inr ⟨h''.1, i, h''.2⟩
    · exact Or.inr h'

/-- Run for the C10 counterexample: the current term is the short term
(`term_in_year = 3`), one free-elective slot is due, so one entry is
emitted in that short term. -/
def c10curr : Curriculum := ⟨"K", [], ⟨[], [], none⟩, ⟨[⟨"fe1", 3⟩], none⟩⟩

/-- C10 counterexample: the single emitted forecast entry belongs to the
short term (`semInYear = 3`, offerings are resolved under the `"s"` tag),
yet its recorded term label is the numeric string `"3"`
(`str(sem_in_year)`), not the short tag `"s"`. -/
theorem claim_C10_counterexample :
    semInYear 3 0 = 3
      ∧ (generate_forecast [] ⟨[], [], [], []⟩ [("K", c10curr)] ⟨2023, 3⟩
          ⟨some "K", []⟩).map (fun o => o.forecast.map (fun e => e.semester))
        = some ["3"]
      ∧ ("3" : String) ≠ "s" := by
  refine ⟨by decide, by decide, by decide⟩

/-- C10 (amended): a forecast entry is appended for a simulated term only
when at least one item was scheduled in it (every emitted entry carries a
non-empty item list), and every entry's term label is the numeric string
`str(term_in_year)` — `"1"`, `"2"` or `"3"` — never the short-term tag
`"s"`, which is used only to resolve that term's offerings. -/
theorem claim_C10 (enum : List String → List String) (go : GradeOrder) (R : Resolver)
    (AC : List (String × Curriculum)) (cfg : Config) (sd : StudentData) (out : Output)
    (h : generate_forecastOrd enum go R AC cfg sd = some out) :
    ∀ e ∈ out.forecast, e.courses ≠ []
      ∧ (e.semester = "1" ∨ e.semester = "2" ∨ e.semester = "3") := by
  obtain ⟨k, curr, _, _, _, hout⟩ := generate_forecastOrd_eq_some h
  intro e he
  rw [hout] at he
  have he' : e ∈ (simFrom (simParamsOf enum R k curr
      (get_student_progress sd.courses curr go R) cfg) 18 0
      (initStateOf curr (get_student_progress sd.courses curr go R))).forecast := he
  rcases mem_simFrom_forecast 18 0 _ e he' with h0 | h0
  · cases h0
  · obtain ⟨hne, j, hsem⟩ := h0
    refine ⟨hne, ?_⟩
    rcases semInYear_cases (simParamsOf enum R k curr
        (get_student_progress sd.courses curr go R) cfg).semester j with hc | hc | hc <;>
      rw [hsem, hc]
    · exact Or.inl rfl
    · exact Or.inr (Or.inl rfl)
    · exact Or.inr (Or.inr rfl)

/-- C10 witness: the amended statement applied to the single entry emitted
by the concrete short-term run of the counterexample configuration. -/
theorem claim_C10_witness :
    (ForecastEntry.mk "2023-2024" "3" [.text "free-elective"]).courses ≠ []
      ∧ ((ForecastEntry.mk "2023-2024" "3" [.text "free-elective"]).semester = "1"
        ∨ (ForecastEntry.mk "2023-2024" "3" [.text "free-elective"]).semester = "2"
        ∨ (ForecastEntry.mk "2023-2024" "3" [.text "free-elective"]).semester = "3") :=
  claim_C10 (fun l => l) [] ⟨[], [], [], []⟩ [("K", c10curr)] ⟨2023, 3⟩
    ⟨some "K", []⟩ ⟨[], [], [], [], 0, 0, [⟨"2023-2024", "3", [.text "free-elective"]⟩]⟩
    (by decide) (ForecastEntry.mk "2023-2024" "3" [.text "free-elective"]) (by decide)

/-! ## Scheduling-pass specifications (shared by C1 and C2) -/

/-- The course id of a concrete scheduled course item (placeholders and
slot items carry none). -/
def itemCid : ForecastItem → Option String
  | .course r => some (refCid r)
  | .text _ => none
  | .slotOpts _ _ => none

/-- Course ids of the concrete course items of one item list. -/
def courseCids (items : List ForecastItem) : List String :=
  items.filterMap itemCid

/-- Course ids of the concrete course items of one forecast entry. -/
def entryCourseCids (e : ForecastEntry) : List String :=
  courseCids e.courses

/-- All concrete scheduled course ids of a forecast, in schedule order. -/
def schedCids (f : List ForecastEntry) : List String :=
  (f.map entryCourseCids).flatten

/-- The internal codes of all concrete scheduled course ids of a
forecast. -/
def scheduledICs (R : Resolver) (f : List ForecastEntry) : List (Option String) :=
  (schedCids f).map (get_internal_code R)

theorem refCid_details (R : Resolver) (c cid : String) :
    refCid (get_course_details R c cid) = c := by
  rw [get_course_details]
  cases alookup c (buildDetailsMap R.aliases) <;> rfl

theorem courseCids_append (a b : List ForecastItem) :
    courseCids (a ++ b) = courseCids a ++ courseCids b :=
  List.filterMap_append a b itemCid

theorem courseCids_map_course (R : Resolver) (cid : String) (sched : List String) :
    courseCids (sched.map (fun c => ForecastItem.course (get_course_details R c cid)))
      = sched := by
  induction sched with
  | nil => rfl
  | cons c t ih =>
    simp only [List.map_cons, courseCids, List.filterMap_cons, itemCid, refCid_details]
    simp only [courseCids] at ih
    rw [ih]

theorem courseCids_eq_nil (l : List ForecastItem) (h : ∀ it ∈ l, itemCid it = none) :
    courseCids l = [] := by
  induction l with
  | nil => rfl
  | cons it t ih =>
    rw [courseCids, List.filterMap_cons, h it (List.mem_cons_self _ _)]
    exact ih (fun x hx => h x (List.mem_cons_of_mem _ hx))

theorem schedCids_append_entry (f : List ForecastEntry) (e : ForecastEntry) :
    schedCids (f ++ [e]) = schedCids f ++ entryCourseCids e := by
  rw [schedCids, List.map_append, List.flatten_append]
  simp [schedCids]

theorem band_elim {a b : Bool} (h : (a && b) = true) : a = true ∧ b = true := by
  cases a
  · cases h
  · exact ⟨rfl, h⟩

theorem bnot_eq_true {b : Bool} (h : (!b) = true) : b = false := by
  cases b
  · rfl
  · cases h

theorem icFree_spec {ic : Option String} {passedIC : List String}
    {fic : List (Option String)} (h : icFree ic passedIC fic = true) :
    (∀ s, ic = some s → s ∉ passedIC) ∧ ic ∉ fic := by
  rw [icFree.eq_def] at h
  obtain ⟨h1, h2⟩ := band_elim h
  refine ⟨?_, omemB_eq_false.mp (bnot_eq_true h2)⟩
  intro s hs
  subst hs
  have h1' : (!(memB s passedIC)) = true := h1
  exact memB_eq_false.mp (bnot_eq_true h1')

/-- Full description of one dedup-checked scheduling sweep: the scheduled
courses `sched` are the candidates that passed their guard; the items are
their detail records in order; the internal-code set grows by exactly their
internal codes; those codes avoid the history set, avoid the incoming
code set, and are pairwise distinct; the kept list holds only candidates. -/
theorem schedulePass_spec (R : Resolver) (cid : String) (passedIC : List String)
    (cond : String → Bool) (cs : List String) (fic : List (Option String)) :
    ∃ sched : List String,
      (schedulePass R cid passedIC cond cs fic).2.2
          = sched.map (fun c => ForecastItem.course (get_course_details R c cid))
      ∧ (schedulePass R cid passedIC cond cs fic).2.1
          = fic ++ sched.map (get_internal_code R)
      ∧ (∀ c ∈ sched, c ∈ cs ∧ cond c = true
          ∧ (∀ s, get_internal_code R c = some s → s ∉ passedIC))
      ∧ (∀ x ∈ sched.map (get_internal_code R), x ∉ fic)
      ∧ (sched.map (get_internal_code R)).Nodup
      ∧ (∀ c ∈ (schedulePass R cid passedIC cond cs fic).1, c ∈ cs) := by
  induction cs generalizing fic with
  | nil =>
    exact ⟨[], rfl, by simp [schedulePass], by simp, by simp, by simp, by simp [schedulePass]⟩
  | cons c rest ih =>
    by_cases hc : (cond c && icFree (get_internal_code R c) passedIC fic) = true
    · obtain ⟨hcond, hicf⟩ := band_elim hc
      obtain ⟨hpass, hnotfic⟩ := icFree_spec hicf
      obtain ⟨sched, hitems, hfic, hprops, hnew, hnodup, hkeep⟩ :=
        ih (fic ++ [get_internal_code R c])
      refine ⟨c :: sched, ?_, ?_, ?_, ?_, ?_, ?_⟩
      · show (schedulePass R cid passedIC cond (c :: rest) fic).2.2 = _
        rw [schedulePass, if_pos hc]
        simp only [List.map_cons]
        rw [hitems]
      · show (schedulePass R cid passedIC cond (c :: rest) fic).2.1 = _
        rw [schedulePass, if_pos hc]
        simp only
        rw [hfic, List.map_cons, List.append_assoc, List.singleton_append]
      · intro x hx
        rcases List.mem_cons.mp hx with rfl | hx
        · exact ⟨List.mem_cons_self _ _, hcond, hpass⟩
        · obtain ⟨h1, h2, h3⟩ := hprops x hx
          exact ⟨List.mem_cons_of_mem _ h1, h2, h3⟩
      · intro x hx
        rw [List.map_cons] at hx
        rcases List.mem_cons.mp hx with rfl | hx
        · exact hnotfic
        · intro hxin
          exact hnew x hx (List.mem_append_left _ hxin)
      · rw [List.map_cons]
        refine List.Nodup.cons ?_ hnodup
        intro hxin
        exact hnew _ hxin (List.mem_append_right _ (List.mem_singleton_self _))
      · intro x hx
        rw [schedulePass, if_pos hc] at hx
        exact List.mem_cons_of_mem _ (hkeep x hx)
    · obtain ⟨sched, hitems, hfic, hprops, hnew, hnodup, hkeep⟩ := ih fic
      refine ⟨sched, ?_, ?_, ?_, hnew, hnodup, ?_⟩
      · show (schedulePass R cid passedIC cond (c :: rest) fic).2.2 = _
        rw [schedulePass, if_neg hc]
        exact hitems
      · show (schedulePass R cid passedIC cond (c :: rest) fic).2.1 = _
        rw [schedulePass, if_neg hc]
        exact hfic
      · intro x hx
        obtain ⟨h1, h2, h3⟩ := hprops x hx
        exact ⟨List.mem_cons_of_mem _ h1, h2, h3⟩
      · intro x hx
        rw [schedulePass, if_neg hc] at hx
        rcases List.mem_cons.mp hx with rfl | hx
        · exact List.mem_cons_self _ _
        · exact List.mem_cons_of_mem _ (hkeep x hx)

/-- A candidate whose guard fails is kept for the next term. -/
theorem schedulePass_keep_of_cond_false (R : Resolver) (cid : String)
    (passedIC : List String) (cond : String → Bool) {c : String} :
    ∀ (cs : List String) (fic : List (Option String)), c ∈ cs → cond c = false →
      c ∈ (schedulePass R cid passedIC cond cs fic).1 := by
  intro cs
  induction cs with
  | nil => intro fic h; cases h
  | cons d rest ih =>
    intro fic hmem hcond
    rcases List.mem_cons.mp hmem with rfl | hmem
    · rw [schedulePass, if_neg (by rw [hcond, Bool.false_and]; exact Bool.false_ne_true)]
      exact List.mem_cons_self _ _
    · by_cases hd : (cond d && icFree (get_internal_code R d) passedIC fic) = true
      · rw [schedulePass, if_pos hd]
        exact ih _ hmem hcond
      · rw [schedulePass, if_neg hd]
        exact List.mem_cons_of_mem _ (ih _ hmem hcond)

theorem choicePass_items {cm : List (String × ChoiceInfo)} {n : Int} {fp : List String} :
    ∀ (ps : List String) (it : ForecastItem), it ∈ (choicePass cm n fp ps).2 →
      ∃ p, it = .text p := by
  intro ps
  induction ps with
  | nil => intro it h; cases h
  | cons p rest ih =>
    intro it h
    rw [choicePass] at h
    split at h
    · rcases List.mem_cons.mp h with rfl | h
      · exact ⟨p, rfl⟩
      · exact ih it h
    · exact ih it h

theorem freePass_items :
    ∀ (slots : List Slot) (pf : Int) (fp : List String) (it : ForecastItem),
      it ∈ (freePass slots pf fp).2.2 → it = .text "free-elective" := by
  intro slots
  induction slots with
  | nil => intro pf fp it h; cases h
  | cons s rest ih =>
    intro pf fp it h
    rw [freePass] at h
    split at h
    · rcases List.mem_cons.mp h with rfl | h
      · rfl
      · exact ih _ _ it h
    · exact ih _ _ it h

theorem collectOptions_spec (R : Resolver) (cid : String) (off : List String)
    (passedIC : List String) (fic : List (Option String)) (fp : List String) :
    ∀ (avail : List MajorCourse) (icSeen : List (Option String)) (r : CourseRef),
      r ∈ collectOptions R cid off passedIC fic fp avail icSeen →
      ∃ c : MajorCourse, r = get_course_details R c.course cid
        ∧ icFree (get_internal_code R c.course) passedIC fic = true := by
  intro avail
  induction avail with
  | nil => intro icSeen r h; cases h
  | cons c rest ih =>
    intro icSeen r h
    rw [collectOptions] at h
    split at h
    · next hcond =>
      rcases List.mem_cons.mp h with rfl | h
      · refine ⟨c, rfl, ?_⟩
        have h1 := band_elim hcond
        have h2 := band_elim h1.1
        exact h2.2
      · exact ih _ r h
    · exact ih _ r h

theorem majorPass_items (R : Resolver) (cid : String) (off : List String)
    (passedIC : List String) (fic : List (Option String)) (avail : List MajorCourse) :
    ∀ (slots : List Slot) (pm : Int) (fp : List String) (it : ForecastItem),
      it ∈ (majorPass R cid off passedIC fic avail slots pm fp).2.2 →
      ∃ ph opts, it = .slotOpts ph opts
        ∧ ∀ r ∈ opts, ∃ c : MajorCourse, r = get_course_details R c.course cid
            ∧ icFree (get_internal_code R c.course) passedIC fic = true := by
  intro slots
  induction slots with
  | nil => intro pm fp it h; cases h
  | cons s rest ih =>
    intro pm fp it h
    rw [majorPass] at h
    split at h
    · dsimp only at h
      split at h
      · exact ih _ _ it h
      · dsimp only at h
        rcases List.mem_cons.mp h with rfl | h
        · exact ⟨s.placeholder, _, rfl, fun r hr => collectOptions_spec R cid off
            passedIC fic fp avail [] r hr⟩
        · exact ih _ _ it h
    · exact ih _ _ it h

theorem majorPass_fp_mono (R : Resolver) (cid : String) (off : List String)
    (passedIC : List String) (fic : List (Option String)) (avail : List MajorCourse) :
    ∀ (slots : List Slot) (pm : Int) (fp : List String) (x : String), x ∈ fp →
      x ∈ (majorPass R cid off passedIC fic avail slots pm fp).2.1 := by
  intro slots
  induction slots with
  | nil => intro pm fp x hx; exact hx
  | cons s rest ih =>
    intro pm fp x hx
    rw [majorPass]
    split
    · dsimp only
      split
      · exact ih _ _ x hx
      · exact ih _ _ x ((mem_sadd _ _ _).mpr (Or.inl hx))
    · exact ih _ _ x hx

theorem freePass_fp_mono :
    ∀ (slots : List Slot) (pf : Int) (fp : List String) (x : String), x ∈ fp →
      x ∈ (freePass slots pf fp).2.1 := by
  intro slots
  induction slots with
  | nil => intro pf fp x hx; exact hx
  | cons s rest ih =>
    intro pf fp x hx
    rw [freePass]
    split
    · exact ih _ _ x ((mem_sadd _ _ _).mpr (Or.inl hx))
    · exact ih _ _ x hx

theorem fpAfterItems_mono :
    ∀ (items : List ForecastItem) (fp : List String) (x : String), x ∈ fp →
      x ∈ fpAfterItems fp items := by
  intro items
  induction items with
  | nil => intro fp x hx; exact hx
  | cons it rest ih =>
    intro fp x hx
    match it with
    | .course (.obj nm ic cid) =>
      rw [fpAfterItems]
      by_cases hcid : cid ≠ ""
      · rw [if_pos hcid]
        exact ih _ x ((mem_sadd _ _ _).mpr (Or.inl hx))
      · rw [if_neg hcid]
        exact ih _ x hx
    | .course (.raw cid) =>
      rw [fpAfterItems]
      exact ih _ x ((mem_sadd _ _ _).mpr (Or.inl hx))
    | .text s =>
      rw [fpAfterItems]
      exact ih _ x ((mem_sadd _ _ _).mpr (Or.inl hx))
    | .slotOpts ph opts =>
      rw [fpAfterItems]
      exact ih _ x hx

/-! ## Claim C1 — internal-code deduplication of the schedule -/

theorem termRet_eq (P : SimParams) (i : Nat) (st : SimState) :
    termRet P i st = schedulePass P.R P.curriculum_id P.passedIC
      (retakeCond P (termOfferings P i) st.forecastPassed)
      (P.enum st.retakes) st.forecastedIC := rfl

theorem termCore_eq (P : SimParams) (i : Nat) (st : SimState) :
    termCore P i st = schedulePass P.R P.curriculum_id P.passedIC
      (coreCond P (termOfferings P i) (absTermNum P.year P.semester i) st.forecastPassed)
      st.pendingCore (termRet P i st).2.1 := rfl

theorem termItems_eq (P : SimParams) (i : Nat) (st : SimState) :
    termItems P i st = (termRet P i st).2.2 ++ (termCore P i st).2.2 ++ (termChoi P i st).2
      ++ (termMaj P i st).2.2 ++ (termFree P i st).2.2 := rfl

theorem termChoi_eq (P : SimParams) (i : Nat) (st : SimState) :
    termChoi P i st = choicePass P.choiceMap (absTermNum P.year P.semester i)
      st.forecastPassed st.pendingChoices := rfl

theorem termMaj_eq (P : SimParams) (i : Nat) (st : SimState) :
    termMaj P i st = majorPass P.R P.curriculum_id (termOfferings P i) P.passedIC
      (termCore P i st).2.1 P.avail
      (P.majorSlots.filter (fun s => s.semester == absTermNum P.year P.semester i))
      st.pendingMajor st.forecastPassed := rfl

theorem termFree_eq (P : SimParams) (i : Nat) (st : SimState) :
    termFree P i st = freePass
      (P.freeSlots.filter (fun s => s.semester == absTermNum P.year P.semester i))
      st.pendingFree (termMaj P i st).2.1 := rfl

theorem termStep_forecastedIC (P : SimParams) (i : Nat) (st : SimState) :
    (termStep P i st).forecastedIC = (termCore P i st).2.1 := rfl

/-- The invariant tying the already-forecast internal-code set to the
forecast built so far. -/
def InvC1 (P : SimParams) (st : SimState) : Prop :=
  st.forecastedIC = scheduledICs P.R st.forecast
  ∧ st.forecastedIC.Nodup
  ∧ (∀ x ∈ st.forecastedIC, ∀ s, x = some s → s ∉ P.passedIC)
  ∧ ∀ n e, st.forecast.get? n = some e →
      ∀ ph opts, ForecastItem.slotOpts ph opts ∈ e.courses →
      ∀ r ∈ opts, (∀ s, get_internal_code P.R (refCid r) = some s → s ∉ P.passedIC)
        ∧ get_internal_code P.R (refCid r) ∉ scheduledICs P.R (st.forecast.take n)

theorem invC1_step (P : SimParams) (i : Nat) (st : SimState) (hinv : InvC1 P st) :
    InvC1 P (termStep P i st) := by
  obtain ⟨h1, h2, h3, h4⟩ := hinv
  obtain ⟨sr, hri, hrf, hrp, hrnew, hrnd, _⟩ :=
    schedulePass_spec P.R P.curriculum_id P.passedIC
      (retakeCond P (termOfferings P i) st.forecastPassed)
      (P.enum st.retakes) st.forecastedIC
  obtain ⟨sc, hci, hcf, hcp, hcnew, hcnd, _⟩ :=
    schedulePass_spec P.R P.curriculum_id P.passedIC
      (coreCond P (termOfferings P i) (absTermNum P.year P.semester i) st.forecastPassed)
      st.pendingCore (termRet P i st).2.1
  rw [← termRet_eq] at hri hrf
  rw [← termCore_eq] at hci hcf
  -- the new internal-code set
  have hfic' : (termStep P i st).forecastedIC
      = st.forecastedIC ++ (sr.map (get_internal_code P.R) ++ sc.map (get_internal_code P.R)) := by
    rw [termStep_forecastedIC, hcf, hrf, List.append_assoc]
  -- course ids of this term's items
  have hchoi : courseCids (termChoi P i st).2 = [] := by
    refine courseCids_eq_nil _ (fun it hit => ?_)
    rw [termChoi_eq] at hit
    obtain ⟨p, rfl⟩ := choicePass_items st.pendingChoices it hit
    rfl
  have hmaj : courseCids (termMaj P i st).2.2 = [] := by
    refine courseCids_eq_nil _ (fun it hit => ?_)
    rw [termMaj_eq] at hit
    obtain ⟨ph, opts, rfl, _⟩ := majorPass_items P.R P.curriculum_id (termOfferings P i)
      P.passedIC (termCore P i st).2.1 P.avail _ _ _ it hit
    rfl
  have hfree : courseCids (termFree P i st).2.2 = [] := by
    refine courseCids_eq_nil _ (fun it hit => ?_)
    rw [termFree_eq] at hit
    rw [freePass_items _ _ _ it hit]
    rfl
  have hcids : courseCids (termItems P i st) = sr ++ sc := by
    rw [termItems_eq, courseCids_append, courseCids_append, courseCids_append,
      courseCids_append, hchoi, hmaj, hfree, hri, hci,
      courseCids_map_course, courseCids_map_course]
    simp
  by_cases hempty : (termItems P i st).isEmpty = true
  · -- nothing scheduled: the state is unchanged where it matters
    have hitnil : termItems P i st = [] := List.isEmpty_iff.mp hempty
    have hsr : sr = [] ∧ sc = [] := by
      have : sr ++ sc = [] := by rw [← hcids, hitnil]; rfl
      exact List.append_eq_nil.mp this
    have hficsame : (termStep P i st).forecastedIC = st.forecastedIC := by
      rw [hfic', hsr.1, hsr.2]
      simp
    have hfcsame : (termStep P i st).forecast = st.forecast := by
      rw [termStep_forecast, if_pos hempty]
    refine ⟨?_, ?_, ?_, ?_⟩
    · rw [hficsame, hfcsame]; exact h1
    · rw [hficsame]; exact h2
    · rw [hficsame]; exact h3
    · rw [hfcsame]
      intro n e hget ph opts hmem r hr
      exact h4 n e hget ph opts hmem r hr
  · have hfc' : (termStep P i st).forecast = st.forecast
        ++ [⟨acadYearLabel P.year P.semester i, toString (semInYear P.semester i),
            termItems P i st⟩] := by
      rw [termStep_forecast, if_neg hempty]
    set e : ForecastEntry := ⟨acadYearLabel P.year P.semester i,
      toString (semInYear P.semester i), termItems P i st⟩ with he
    have hec : entryCourseCids e = sr ++ sc := hcids
    have hsched' : scheduledICs P.R ((termStep P i st).forecast)
        = st.forecastedIC ++ (sr.map (get_internal_code P.R)
            ++ sc.map (get_internal_code P.R)) := by
      rw [hfc', scheduledICs, schedCids_append_entry, hec, List.map_append, ← scheduledICs,
        ← h1, List.map_append]
    refine ⟨?_, ?_, ?_, ?_⟩
    · rw [hfic', hsched']
    · rw [hfic', ← List.append_assoc]
      refine List.Nodup.append (List.Nodup.append h2 hrnd ?_) hcnd ?_
      · rw [List.disjoint_right]
        intro a ha
        exact hrnew a ha
      · rw [List.disjoint_right]
        intro a ha hin
        rw [← hrf] at hin
        exact hcnew a ha hin
    · rw [hfic']
      intro x hx s hxs
      rcases List.mem_append.mp hx with hx | hx
      · exact h3 x hx s hxs
      · rcases List.mem_append.mp hx with hx | hx
        · obtain ⟨c, hc, hceq⟩ := List.mem_map.mp hx
          exact (hrp c hc).2.2 s (by rw [hceq, hxs])
        · obtain ⟨c, hc, hceq⟩ := List.mem_map.mp hx
          exact (hcp c hc).2.2 s (by rw [hceq, hxs])
    · rw [hfc']
      intro n e' hget ph opts hmem r hr
      rcases Nat.lt_trichotomy n st.forecast.length with hn | hn | hn
      · rw [List.get?_append hn] at hget
        rw [List.take_append_of_le_length (Nat.le_of_lt hn)]
        exact h4 n e' hget ph opts hmem r hr
      · subst hn
        rw [List.get?_concat_length] at hget
        injection hget with hget
        subst hget
        rw [show e.courses = termItems P i st from rfl, termItems_eq] at hmem
        rcases List.mem_append.mp hmem with hmm | hfr
        · rcases List.mem_append.mp hmm with hmm' | hmj
          · rcases List.mem_append.mp hmm' with hmm'' | hch
            · rcases List.mem_append.mp hmm'' with hrt | hco
              · rw [hri] at hrt
                obtain ⟨c, _, hceq⟩ := List.mem_map.mp hrt
                cases hceq
              · rw [hci] at hco
                obtain ⟨c, _, hceq⟩ := List.mem_map.mp hco
                cases hceq
            · rw [termChoi_eq] at hch
              obtain ⟨p, hp⟩ := choicePass_items _ _ hch
              cases hp
          · rw [termMaj_eq] at hmj
            obtain ⟨ph', opts', heq, hprops⟩ :=
              majorPass_items P.R P.curriculum_id (termOfferings P i) P.passedIC
                (termCore P i st).2.1 P.avail _ _ _ _ hmj
            injection heq with hph hopts
            subst hph
            subst hopts
            obtain ⟨c, hrc, hicf⟩ := hprops r hr
            obtain ⟨hps, hnf⟩ := icFree_spec hicf
            have hrid : refCid r = c.course := by rw [hrc, refCid_details]
            constructor
            · intro s hs
              exact hps s (by rwa [hrid] at hs)
            · rw [hrid, List.take_left, ← h1]
              intro hin
              apply hnf
              rw [hcf, hrf]
              exact List.mem_append_left _ (List.mem_append_left _ hin)
        · rw [termFree_eq] at hfr
          have := freePass_items _ _ _ _ hfr
          cases this
      · exfalso
        have hnone : (st.forecast ++ [e]).get? n = none := by
          rw [List.get?_eq_none, List.length_append, List.length_singleton]
          omega
        rw [hnone] at hget
        cases hget

/-- The invariant holds along the whole simulation. -/
theorem invC1_run (P : SimParams) :
    ∀ (k i : Nat) (st : SimState), InvC1 P st → InvC1 P (simFrom P k i st) := by
  intro k
  induction k with
  | zero => intro i st h; exact h
  | succ n ih =>
    intro i st h
    rw [simFrom]
    exact ih (i + 1) (termStep P i st) (invC1_step P i st h)

theorem invC1_init (P : SimParams) (curr : Curriculum) (prog : Progress) :
    InvC1 P (initStateOf curr prog) := by
  refine ⟨rfl, List.nodup_nil, ?_, ?_⟩
  · intro x hx
    cases hx
  · intro n e hget
    cases hget

/-- C1 counterexample (to the pending-output half of the claim): course
`"X"` has internal code `"42"`; the student's grade `D` meets the baseline
passing grade, so `"42"` enters the satisfied-internal-codes set, but fails
the course's own passing grade `C`, so `"X"` becomes a retake, is dedup-
blocked from ever being scheduled, and remains in the `pending_core_courses`
output even though its internal code is satisfied by history. -/
theorem claim_C1_counterexample :
    get_internal_code ⟨[("42", ⟨[("K3", "X")]⟩)], ["42"], ["42"], ["42"]⟩ "X" = some "42"
      ∧ "42" ∈ (get_student_progress [("X", ⟨some "D"⟩)]
          ⟨"K3", [.core "X" ⟨some "C", [], 1⟩], ⟨[], [], none⟩, ⟨[], none⟩⟩
          [("F", 0), ("D", 1), ("C", 2)]
          ⟨[("42", ⟨[("K3", "X")]⟩)], ["42"], ["42"], ["42"]⟩).passedIC
      ∧ (generate_forecast [("F", 0), ("D", 1), ("C", 2)]
          ⟨[("42", ⟨[("K3", "X")]⟩)], ["42"], ["42"], ["42"]⟩
          [("K3", ⟨"K3", [.core "X" ⟨some "C", [], 1⟩], ⟨[], [], none⟩, ⟨[], none⟩⟩)]
          ⟨2023, 1⟩ ⟨some "K3", [("X", ⟨some "D"⟩)]⟩).map
            (fun o => o.pending_core_courses)
        = some ["X"] := by
  refine ⟨by decide, by decide, by decide⟩

/-- C1 (amended): during the 18-term simulation no course is ever committed
— as a retake, a core course, or a major-elective option — whose internal
code is already in the satisfied set derived from history or was already
recorded for a course scheduled earlier (the recorded internal codes of the
scheduled courses are pairwise distinct); however, a course code whose
internal code is satisfied by history can still appear in the pending
output sets (see the counterexample), so the pending-output half of the
original claim is dropped. -/
theorem claim_C1 (enum : List String → List String) (go : GradeOrder) (R : Resolver)
    (AC : List (String × Curriculum)) (cfg : Config) (sd : StudentData) (k : String)
    (curr : Curriculum) (out : Output)
    (hk : sd.curriculum = some k) (hke : k ≠ "") (hc : alookup k AC = some curr)
    (h : generate_forecastOrd enum go R AC cfg sd = some out) :
    (∀ cid ∈ schedCids out.forecast, ∀ s, get_internal_code R cid = some s →
        s ∉ (get_student_progress sd.courses curr go R).passedIC)
    ∧ (scheduledICs R out.forecast).Nodup
    ∧ (∀ n e, out.forecast.get? n = some e →
        ∀ ph opts, ForecastItem.slotOpts ph opts ∈ e.courses →
        ∀ r ∈ opts, (∀ s, get_internal_code R (refCid r) = some s →
            s ∉ (get_student_progress sd.courses curr go R).passedIC)
          ∧ get_internal_code R (refCid r) ∉ scheduledICs R (out.forecast.take n)) := by
  obtain ⟨k', curr', hk', hke', hc', hout⟩ := generate_forecastOrd_eq_some h
  rw [hk] at hk'
  injection hk' with hk'
  subst hk'
  rw [hc] at hc'
  injection hc' with hc'
  subst hc'
  have hinv := invC1_run (simParamsOf enum R k curr
      (get_student_progress sd.courses curr go R) cfg) 18 0
    (initStateOf curr (get_student_progress sd.courses curr go R))
    (invC1_init _ curr (get_student_progress sd.courses curr go R))
  obtain ⟨h1, h2, h3, h4⟩ := hinv
  have hfc : out.forecast = (simFrom (simParamsOf enum R k curr
      (get_student_progress sd.courses curr go R) cfg) 18 0
      (initStateOf curr (get_student_progress sd.courses curr go R))).forecast := by
    rw [hout]
    rfl
  refine ⟨?_, ?_, ?_⟩
  · intro cid hcid s hs
    rw [hfc] at hcid
    have hx : get_internal_code (simParamsOf enum R k curr
        (get_student_progress sd.courses curr go R) cfg).R cid
        ∈ (simFrom (simParamsOf enum R k curr
            (get_student_progress sd.courses curr go R) cfg) 18 0
          (initStateOf curr (get_student_progress sd.courses curr go R))).forecastedIC := by
      rw [h1]
      exact List.mem_map_of_mem _ hcid
    exact h3 _ hx s hs
  · rw [hfc]
    show (scheduledICs (simParamsOf enum R k curr
        (get_student_progress sd.courses curr go R) cfg).R _).Nodup
    rw [← h1]
    exact h2
  · intro n e hget ph opts hmem r hr
    rw [hfc] at hget ⊢
    exact h4 n e hget ph opts hmem r hr

/-- Empty curriculum for the C1 witness. -/
def c1wCurr : Curriculum := ⟨"W", [], ⟨[], [], none⟩, ⟨[], none⟩⟩

/-- C1 witness: the amended statement applied to a concrete run. -/
theorem claim_C1_witness :
    (∀ cid ∈ schedCids (Output.mk [] [] [] [] 0 0 []).forecast, ∀ s,
        get_internal_code ⟨[], [], [], []⟩ cid = some s →
        s ∉ (get_student_progress ([] : List (String × CourseRec)) c1wCurr []
          ⟨[], [], [], []⟩).passedIC)
    ∧ (scheduledICs ⟨[], [], [], []⟩ (Output.mk [] [] [] [] 0 0 []).forecast).Nodup
    ∧ (∀ n e, (Output.mk [] [] [] [] 0 0 []).forecast.get? n = some e →
        ∀ ph opts, ForecastItem.slotOpts ph opts ∈ e.courses →
        ∀ r ∈ opts, (∀ s, get_internal_code ⟨[], [], [], []⟩ (refCid r) = some s →
            s ∉ (get_student_progress ([] : List (String × CourseRec)) c1wCurr []
              ⟨[], [], [], []⟩).passedIC)
          ∧ get_internal_code ⟨[], [], [], []⟩ (refCid r)
              ∉ scheduledICs ⟨[], [], [], []⟩ ((Output.mk [] [] [] [] 0 0 []).forecast.take n)) :=
  claim_C1 (fun l => l) [] ⟨[], [], [], []⟩ [("W", c1wCurr)] ⟨2023, 1⟩ ⟨some "W", []⟩
    "W" c1wCurr ⟨[], [], [], [], 0, 0, []⟩ rfl (by decide) (by decide) (by decide)

/-! ## Claim C2 — prerequisite gating -/

theorem simFrom_succ_last (P : SimParams) :
    ∀ (k i : Nat) (st : SimState),
      simFrom P (k + 1) i st = termStep P (i + k) (simFrom P k i st) := by
  intro k
  induction k with
  | zero => intro i st; rw [simFrom, simFrom, simFrom, Nat.add_zero]
  | succ n ih =>
    intro i st
    rw [show n + 1 + 1 = (n + 1) + 1 from rfl, simFrom, ih (i + 1) (termStep P i st),
      ← simFrom]
    rw [show i + 1 + n = i + (n + 1) from by omega]

theorem stateAt_succ (P : SimParams) (st0 : SimState) (j : Nat) :
    stateAt P st0 (j + 1) = termStep P j (stateAt P st0 j) := by
  rw [stateAt, stateAt, simFrom_succ_last, Nat.zero_add]

theorem simFrom_add (P : SimParams) :
    ∀ (a b i : Nat) (st : SimState),
      simFrom P (a + b) i st = simFrom P b (i + a) (simFrom P a i st) := by
  intro a
  induction a with
  | zero =>
    intro b i st
    rw [Nat.zero_add, simFrom, Nat.add_zero]
  | succ n ih =>
    intro b i st
    rw [show n + 1 + b = (n + b) + 1 from by omega]
    rw [show (n + b) + 1 = Nat.succ (n + b) from rfl]
    rw [show Nat.succ (n + b) = (n + b) + 1 from rfl]
    rw [show simFrom P ((n + b) + 1) i st = simFrom P (n + b) (i + 1) (termStep P i st)
      from rfl]
    rw [ih b (i + 1) (termStep P i st)]
    rw [show simFrom P (n + 1) i st = simFrom P n (i + 1) (termStep P i st) from rfl]
    rw [show i + 1 + n = i + (n + 1) from by omega]

theorem termStep_fp_mono (P : SimParams) (i : Nat) (st : SimState) :
    ∀ x ∈ st.forecastPassed, x ∈ (termStep P i st).forecastPassed := by
  intro x hx
  show x ∈ fpAfterItems (termFree P i st).2.1 (termItems P i st)
  apply fpAfterItems_mono
  rw [termFree_eq]
  apply freePass_fp_mono
  rw [termMaj_eq]
  apply majorPass_fp_mono
  exact hx

theorem simFrom_fp_mono (P : SimParams) :
    ∀ (k i : Nat) (st : SimState), ∀ x ∈ st.forecastPassed,
      x ∈ (simFrom P k i st).forecastPassed := by
  intro k
  induction k with
  | zero => intro i st x hx; exact hx
  | succ n ih =>
    intro i st x hx
    rw [simFrom]
    exact ih (i + 1) (termStep P i st) x (termStep_fp_mono P i st x hx)

theorem termChoi_cids (P : SimParams) (i : Nat) (st : SimState) :
    courseCids (termChoi P i st).2 = [] := by
  refine courseCids_eq_nil _ (fun it hit => ?_)
  rw [termChoi_eq] at hit
  obtain ⟨p, rfl⟩ := choicePass_items st.pendingChoices it hit
  rfl

theorem termMaj_cids (P : SimParams) (i : Nat) (st : SimState) :
    courseCids (termMaj P i st).2.2 = [] := by
  refine courseCids_eq_nil _ (fun it hit => ?_)
  rw [termMaj_eq] at hit
  obtain ⟨ph, opts, rfl, _⟩ := majorPass_items P.R P.curriculum_id (termOfferings P i)
    P.passedIC (termCore P i st).2.1 P.avail _ _ _ it hit
  rfl

theorem termFree_cids (P : SimParams) (i : Nat) (st : SimState) :
    courseCids (termFree P i st).2.2 = [] := by
  refine courseCids_eq_nil _ (fun it hit => ?_)
  rw [termFree_eq] at hit
  rw [freePass_items _ _ _ it hit]
  rfl

/-- When a pending core course `X` has a prerequisite `Y` missing from
`forecast_passed`, one term step keeps `X` pending, keeps it out of the
retake set, and schedules it nowhere. -/
theorem stuck_step (P : SimParams) (i : Nat) (st : SimState) (X Y : String)
    (henum : ∀ (l : List String), ∀ c ∈ P.enum l, c ∈ l)
    (hXp : X ∈ st.pendingCore) (hXr : X ∉ st.retakes)
    (hYpre : Y ∈ corePre P.coreMap X) (hYfp : Y ∉ st.forecastPassed)
    (hfc : ∀ e ∈ st.forecast, X ∉ entryCourseCids e) :
    X ∈ (termStep P i st).pendingCore ∧ X ∉ (termStep P i st).retakes
      ∧ ∀ e ∈ (termStep P i st).forecast, X ∉ entryCourseCids e := by
  cases halo : alookup X P.coreMap with
  | none =>
    rw [corePre, halo] at hYpre
    cases hYpre
  | some info =>
    have hYpre' : Y ∈ info.pre := by
      rw [corePre, halo] at hYpre
      exact hYpre
    have hsub : subB info.pre st.forecastPassed = false := by
      rw [Bool.eq_false_iff]
      intro hs
      exact hYfp ((subB_iff _ _).mp hs Y hYpre')
    have hcond : coreCond P (termOfferings P i) (absTermNum P.year P.semester i)
        st.forecastPassed X = false := by
      rw [coreCond.eq_def, halo]
      show (info.semester == absTermNum P.year P.semester i
        && subB info.pre st.forecastPassed && memB X (termOfferings P i)) = false
      rw [hsub, Bool.and_false, Bool.false_and]
    obtain ⟨sr, hri, _, hrp, _, _, hrkeep⟩ :=
      schedulePass_spec P.R P.curriculum_id P.passedIC
        (retakeCond P (termOfferings P i) st.forecastPassed)
        (P.enum st.retakes) st.forecastedIC
    obtain ⟨sc, hci, _, hcp, _, _, _⟩ :=
      schedulePass_spec P.R P.curriculum_id P.passedIC
        (coreCond P (termOfferings P i) (absTermNum P.year P.semester i) st.forecastPassed)
        st.pendingCore (termRet P i st).2.1
    rw [← termRet_eq] at hri
    rw [← termCore_eq] at hci
    have hcids : courseCids (termItems P i st) = sr ++ sc := by
      rw [termItems_eq, courseCids_append, courseCids_append, courseCids_append,
        courseCids_append, termChoi_cids, termMaj_cids, termFree_cids, hri, hci,
        courseCids_map_course, courseCids_map_course]
      simp
    refine ⟨?_, ?_, ?_⟩
    · show X ∈ (termCore P i st).1
      rw [termCore_eq]
      exact schedulePass_keep_of_cond_false P.R P.curriculum_id P.passedIC _
        st.pendingCore (termRet P i st).2.1 hXp hcond
    · intro hX
      have hX' : X ∈ P.enum st.retakes := by
        have : X ∈ (schedulePass P.R P.curriculum_id P.passedIC
            (retakeCond P (termOfferings P i) st.forecastPassed)
            (P.enum st.retakes) st.forecastedIC).1 := hX
        exact hrkeep X this
      exact hXr (henum st.retakes X hX')
    · intro e he hXe
      rw [termStep_forecast] at he
      split at he
      · exact hfc e he hXe
      · rw [List.mem_append] at he
        rcases he with he | he
        · exact hfc e he hXe
        · rw [List.mem_singleton] at he
          subst he
          have hXe' : X ∈ sr ++ sc := by
            rw [show entryCourseCids ⟨acadYearLabel P.year P.semester i,
                toString (semInYear P.semester i), termItems P i st⟩
                = courseCids (termItems P i st) from rfl, hcids] at hXe
            exact hXe
          rcases List.mem_append.mp hXe' with hX | hX
          · exact hXr (henum st.retakes X (hrp X hX).1)
          · have := (hcp X hX).2.1
            rw [hcond] at this
            cases this

/-- Along the whole simulation the stuck course stays pending, never
becomes a retake, and is scheduled in no term. -/
theorem stuck_run (P : SimParams) (st0 : SimState) (X Y : String)
    (henum : ∀ (l : List String), ∀ c ∈ P.enum l, c ∈ l)
    (hYpre : Y ∈ corePre P.coreMap X)
    (hXp : X ∈ st0.pendingCore) (hXr : X ∉ st0.retakes)
    (hfc0 : ∀ e ∈ st0.forecast, X ∉ entryCourseCids e)
    (N : Nat) (hYnot : Y ∉ (stateAt P st0 N).forecastPassed) :
    ∀ j ≤ N, X ∈ (stateAt P st0 j).pendingCore ∧ X ∉ (stateAt P st0 j).retakes
      ∧ ∀ e ∈ (stateAt P st0 j).forecast, X ∉ entryCourseCids e := by
  have hYj : ∀ j ≤ N, Y ∉ (stateAt P st0 j).forecastPassed := by
    intro j hj hin
    apply hYnot
    have hdecomp : stateAt P st0 N = simFrom P (N - j) j (stateAt P st0 j) := by
      rw [stateAt, stateAt]
      have h1 := simFrom_add P j (N - j) 0 st0
      rw [Nat.zero_add] at h1
      rw [show j + (N - j) = N from by omega] at h1
      exact h1
    rw [hdecomp]
    exact simFrom_fp_mono P (N - j) j _ Y hin
  intro j
  induction j with
  | zero =>
    intro _
    exact ⟨hXp, hXr, hfc0⟩
  | succ n ih =>
    intro hn
    obtain ⟨h1, h2, h3⟩ := ih (by omega)
    rw [stateAt_succ]
    exact stuck_step P n (stateAt P st0 n) X Y henum h1 h2 hYpre
      (hYj n (by omega)) h3

/-- C2: (1) whenever a term step appends a forecast entry, every concrete
core/retake course item in it has all its declared prerequisites inside the
`forecast_passed` set as it stood at the start of that term (history plus
everything from strictly earlier terms); (2) a pending core course with a
prerequisite that is never satisfied during the whole simulation is
scheduled in no term and remains in the `pending_core_courses` output. -/
theorem mkOutput_pending_core (prog : Progress) (fin : SimState) :
    (mkOutput prog fin).pending_core_courses
      = sortList (unionL fin.pendingCore fin.retakes) := rfl

theorem mkOutput_forecast (prog : Progress) (fin : SimState) :
    (mkOutput prog fin).forecast = fin.forecast := rfl

theorem claim_C2 (go : GradeOrder) (R : Resolver) (AC : List (String × Curriculum))
    (cfg : Config) (sd : StudentData) (k : String) (curr : Curriculum) (out : Output)
    (hk : sd.curriculum = some k) (hke : k ≠ "") (hc : alookup k AC = some curr)
    (h : generate_forecast go R AC cfg sd = some out) :
    (∀ j e, (stateAt (simParamsOf (fun l => l) R k curr
          (get_student_progress sd.courses curr go R) cfg)
          (initStateOf curr (get_student_progress sd.courses curr go R)) (j + 1)).forecast
        = (stateAt (simParamsOf (fun l => l) R k curr
            (get_student_progress sd.courses curr go R) cfg)
            (initStateOf curr (get_student_progress sd.courses curr go R)) j).forecast ++ [e] →
      ∀ cid ∈ entryCourseCids e, ∀ a ∈ corePre (coreMapOf curr) cid,
        a ∈ (stateAt (simParamsOf (fun l => l) R k curr
            (get_student_progress sd.courses curr go R) cfg)
            (initStateOf curr (get_student_progress sd.courses curr go R)) j).forecastPassed)
    ∧ (∀ X Y, X ∈ (initStateOf curr (get_student_progress sd.courses curr go R)).pendingCore →
        Y ∈ corePre (coreMapOf curr) X →
        Y ∉ (stateAt (simParamsOf (fun l => l) R k curr
            (get_student_progress sd.courses curr go R) cfg)
            (initStateOf curr (get_student_progress sd.courses curr go R)) 18).forecastPassed →
        X ∈ out.pending_core_courses ∧ ∀ e ∈ out.forecast, X ∉ entryCourseCids e) := by
  obtain ⟨k', curr', hk', hke', hc', hout⟩ := generate_forecastOrd_eq_some h
  rw [hk] at hk'
  injection hk' with hk'
  subst hk'
  rw [hc] at hc'
  injection hc' with hc'
  subst hc'
  constructor
  · intro j e happ cid hcid a hpre
    rw [stateAt_succ] at happ
    set P := simParamsOf (fun l => l) R k curr
      (get_student_progress sd.courses curr go R) cfg with hP
    set stj := stateAt P (initStateOf curr (get_student_progress sd.courses curr go R)) j
      with hstj
    rw [termStep_forecast] at happ
    split at happ
    · exfalso
      have := congrArg List.length happ
      rw [List.length_append, List.length_singleton] at this
      omega
    · have he : e = ⟨acadYearLabel P.year P.semester j,
          toString (semInYear P.semester j), termItems P j stj⟩ := by
        have := List.append_cancel_left happ.symm
        rw [List.singleton_inj] at this
        exact this
      obtain ⟨sr, hri, _, hrp, _, _, _⟩ :=
        schedulePass_spec P.R P.curriculum_id P.passedIC
          (retakeCond P (termOfferings P j) stj.forecastPassed)
          (P.enum stj.retakes) stj.forecastedIC
      obtain ⟨sc, hci, _, hcp, _, _, _⟩ :=
        schedulePass_spec P.R P.curriculum_id P.passedIC
          (coreCond P (termOfferings P j) (absTermNum P.year P.semester j) stj.forecastPassed)
          stj.pendingCore (termRet P j stj).2.1
      rw [← termRet_eq] at hri
      rw [← termCore_eq] at hci
      have hcids : courseCids (termItems P j stj) = sr ++ sc := by
        rw [termItems_eq, courseCids_append, courseCids_append, courseCids_append,
          courseCids_append, termChoi_cids, termMaj_cids, termFree_cids, hri, hci,
          courseCids_map_course, courseCids_map_course]
        simp
      rw [he] at hcid
      have hcid' : cid ∈ sr ++ sc := by
        rw [show entryCourseCids ⟨acadYearLabel P.year P.semester j,
            toString (semInYear P.semester j), termItems P j stj⟩
            = courseCids (termItems P j stj) from rfl, hcids] at hcid
        exact hcid
      rcases List.mem_append.mp hcid' with hcs | hcs
      · have hcond := (hrp cid hcs).2.1
        obtain ⟨_, hsub⟩ := band_elim hcond
        exact (subB_iff _ _).mp hsub a hpre
      · have hcond := (hcp cid hcs).2.1
        cases halo : alookup cid P.coreMap with
        | none =>
          rw [coreCond.eq_def, halo] at hcond
          cases hcond
        | some info =>
          rw [coreCond.eq_def, halo] at hcond
          obtain ⟨h1, _⟩ := band_elim hcond
          obtain ⟨_, hsub⟩ := band_elim h1
          have halo' : alookup cid (coreMapOf curr) = some info := halo
          have hpre' : a ∈ info.pre := by
            rw [corePre, halo'] at hpre
            exact hpre
          exact (subB_iff _ _).mp hsub a hpre'
  · intro X Y hXp hYpre hYnot
    set P := simParamsOf (fun l => l) R k curr
      (get_student_progress sd.courses curr go R) cfg with hP
    set st0 := initStateOf curr (get_student_progress sd.courses curr go R) with hst0
    have hXr : X ∉ st0.retakes := by
      intro hX
      have hfil := List.of_mem_filter hXp
      obtain ⟨_, h2⟩ := band_elim hfil
      have hXf : memB X (get_student_progress sd.courses curr go R).failed = false :=
        bnot_eq_true h2
      rw [memB_eq_false] at hXf
      exact hXf hX
    have hstuck := stuck_run P st0 X Y (fun l c hc => hc) hYpre hXp hXr
      (fun e he => absurd he (List.not_mem_nil e)) 18 hYnot
    obtain ⟨hp18, _, hf18⟩ := hstuck 18 (Nat.le_refl 18)
    rw [stateAt] at hp18 hf18
    constructor
    · rw [hout, mkOutput_pending_core, mem_sortList, mem_unionL]
      exact Or.inl hp18
    · intro e he
      rw [hout, mkOutput_forecast] at he
      exact hf18 e he

/-- Resolver for the C2 witness: `"X"` is offered in every term. -/
def c2wR : Resolver := ⟨[("50", ⟨[("K5", "X")]⟩)], ["50"], ["50"], ["50"]⟩

/-- Curriculum for the C2 witness (the spec's Scenario B): core course
`"X"` declared at term 3 with prerequisite `"Y"` that nothing ever
satisfies. -/
def c2wCurr : Curriculum :=
  ⟨"K5", [.core "X" ⟨none, ["Y"], 3⟩], ⟨[], [], none⟩, ⟨[], none⟩⟩

/-- Student for the C2 witness: empty history. -/
def c2wSd : StudentData := ⟨some "K5", []⟩

/-- C2 witness: in the Scenario-B run the stuck course `"X"` appears in no
forecast term and remains in the pending-core output. -/
theorem claim_C2_witness :
    "X" ∈ (Output.mk [] [] ["X"] [] 0 0 []).pending_core_courses
      ∧ ∀ e ∈ (Output.mk [] [] ["X"] [] 0 0 []).forecast, "X" ∉ entryCourseCids e :=
  (claim_C2 [] c2wR [("K5", c2wCurr)] ⟨2023, 1⟩ c2wSd "K5" c2wCurr
      ⟨[], [], ["X"], [], 0, 0, []⟩ rfl (by decide) (by decide) (by decide)).2
    "X" "Y" (by decide) (by decide) (by decide)

end AcademicForecast
